import Mathlib

/-!
# Verification of the ira-backend streaming search relay

Shallow embedding of the streaming-search core of the `ira-backend`
repository (`src/services/iraService.js`, `src/services/searchStreamService.js`,
`src/sse/sseManager.js`) together with proofs of the testable properties
stated in its design document.

Modelling conventions:
* JavaScript strings are Lean `String` / `List Char`.
* JSON values are modelled by the mutual inductive `Json` below; JSON numbers
  are restricted to integers (floating point is outside the model).
* `JSON.stringify` / `JSON.parse` are modelled by `Json.stringify` /
  `parseJson`; the printer escapes the characters relevant to the SSE wire
  format (`"`, `\`, newline, carriage return, tab).
* Wall-clock timestamps (`new Date().toISOString()`) are not modelled; no
  verified property mentions them.
-/

/-! ## Definitions -/

/-- The decimal digit character for `d` (`d < 10`). -/
def decDigitChar : Nat → Char
  | 0 => '0' | 1 => '1' | 2 => '2' | 3 => '3' | 4 => '4'
  | 5 => '5' | 6 => '6' | 7 => '7' | 8 => '8' | 9 => '9'
  | _ => '*'

/-- Little-endian decimal digits of `n` (empty for `0`), fuel-driven. -/
def natCharsFuel : Nat → Nat → List Char
  | 0, _ => []
  | fuel + 1, n => if n = 0 then [] else decDigitChar (n % 10) :: natCharsFuel fuel (n / 10)

/-- The decimal representation of `n`, most significant digit first. -/
def natChars (n : Nat) : List Char :=
  if n = 0 then ['0'] else (natCharsFuel n n).reverse

/-- Is `c` a decimal digit character? -/
def isDigitCh (c : Char) : Bool := 48 ≤ c.toNat && c.toNat ≤ 57

/-- Numeric value of a digit character. -/
def digitVal (c : Char) : Nat := c.toNat - 48

/-- Read a digit string back into a number, accumulator style. -/
def digitsToNat (acc : Nat) : List Char → Nat
  | [] => acc
  | c :: cs => digitsToNat (acc * 10 + digitVal c) cs

/-- ASCII whitespace as relevant to `trim` and JSON. -/
def isWsChar (c : Char) : Bool := c = ' ' || c = '\t' || c = '\n' || c = '\r'

/-- Model of JavaScript `String.prototype.trim` on character lists. -/
def trimChars (cs : List Char) : List Char :=
  ((cs.dropWhile isWsChar).reverse.dropWhile isWsChar).reverse

/-- Split a character list at each newline (model of JS `split('\n')`). -/
def splitNL : List Char → List (List Char)
  | [] => [[]]
  | c :: cs =>
    if c = '\n' then [] :: splitNL cs
    else
      match splitNL cs with
      | [] => [[c]]
      | l :: ls => (c :: l) :: ls

/-- Does `cs` start with the pattern `p` (model of JS `startsWith`)? -/
def hasPref : List Char → List Char → Bool
  | [], _ => true
  | _ :: _, [] => false
  | p :: ps, c :: cs => p = c && hasPref ps cs

mutual
/-- JSON values; numbers are restricted to integers (see the file header). -/
inductive Json where
  | null : Json
  | bool : Bool → Json
  | num : Int → Json
  | str : String → Json
  | arr : JsonList → Json
  | obj : JsonObj → Json
deriving DecidableEq

/-- A sequence of JSON array elements. -/
inductive JsonList where
  | nil : JsonList
  | cons : Json → JsonList → JsonList
deriving DecidableEq

/-- JSON object fields, in insertion order. -/
inductive JsonObj where
  | nil : JsonObj
  | cons : String → Json → JsonObj → JsonObj
deriving DecidableEq
end

/-- Escape one character as it appears inside a JSON string literal
(`JSON.stringify` escaping, restricted to the characters this system's
payloads can carry across the SSE line format). -/
def escChar (c : Char) : List Char :=
  if c = '"' then ['\\', '"']
  else if c = '\\' then ['\\', '\\']
  else if c = '\n' then ['\\', 'n']
  else if c = '\r' then ['\\', 'r']
  else if c = '\t' then ['\\', 't']
  else [c]

/-- Escape a whole string body. -/
def escChars (cs : List Char) : List Char := cs.foldr (fun c acc => escChar c ++ acc) []

/-- Decimal representation of an integer. -/
def intChars (i : Int) : List Char :=
  if i < 0 then '-' :: natChars i.natAbs else natChars i.toNat

/-- A serialized object key: quoted escaped string plus colon. -/
def keyChars (k : String) : List Char := '"' :: (escChars k.data ++ ['"', ':'])

mutual
/-- Model of `JSON.stringify` (compact form), producing characters. -/
def Json.chars : Json → List Char
  | .null => ['n', 'u', 'l', 'l']
  | .bool false => ['f', 'a', 'l', 's', 'e']
  | .bool true => ['t', 'r', 'u', 'e']
  | .num i => intChars i
  | .str s => '"' :: (escChars s.data ++ ['"'])
  | .arr .nil => ['[', ']']
  | .arr (.cons v vs) => '[' :: (Json.chars v ++ JsonList.chars vs ++ [']'])
  | .obj .nil => ['\x7b', '\x7d']
  | .obj (.cons k v kvs) =>
      '\x7b' :: (keyChars k ++ Json.chars v ++ JsonObj.chars kvs ++ ['\x7d'])

/-- Trailing array elements, each preceded by a comma. -/
def JsonList.chars : JsonList → List Char
  | .nil => []
  | .cons v vs => ',' :: (Json.chars v ++ JsonList.chars vs)

/-- Trailing object fields, each preceded by a comma. -/
def JsonObj.chars : JsonObj → List Char
  | .nil => []
  | .cons k v kvs => ',' :: (keyChars k ++ Json.chars v ++ JsonObj.chars kvs)
end

/-- Model of `JSON.stringify` as a string. -/
def Json.stringify (v : Json) : String := String.mk v.chars

/-- Skip JSON whitespace. -/
def skipWs (cs : List Char) : List Char := cs.dropWhile isWsChar

/-- Unescape the character following a backslash in a JSON string literal. -/
def unescChar (c : Char) : Option Char :=
  if c = '"' then some '"'
  else if c = '\\' then some '\\'
  else if c = '/' then some '/'
  else if c = 'n' then some '\n'
  else if c = 'r' then some '\r'
  else if c = 't' then some '\t'
  else if c = 'b' then some '\x08'
  else if c = 'f' then some '\x0c'
  else none

/-- Parse a JSON string body up to (and consuming) the closing quote. -/
def parseStrBody : Nat → List Char → Option (List Char × List Char)
  | 0, _ => none
  | _ + 1, [] => none
  | fuel + 1, c :: cs =>
    if c = '"' then some ([], cs)
    else if c = '\\' then
      match cs with
      | [] => none
      | e :: cs2 =>
        match unescChar e with
        | none => none
        | some u =>
          match parseStrBody fuel cs2 with
          | none => none
          | some (s, rest) => some (u :: s, rest)
    else
      match parseStrBody fuel cs with
      | none => none
      | some (s, rest) => some (c :: s, rest)

/-- Parse a run of decimal digits into a number. -/
def parseNatTok (cs : List Char) : Option (Nat × List Char) :=
  if (cs.takeWhile isDigitCh).isEmpty then none
  else some (digitsToNat 0 (cs.takeWhile isDigitCh), cs.dropWhile isDigitCh)

mutual
/-- Fuel-driven JSON value parser: returns the value and the unconsumed rest. -/
def parseVal : Nat → List Char → Option (Json × List Char)
  | 0, _ => none
  | fuel + 1, cs0 =>
    let cs := skipWs cs0
    if hasPref "null".data cs then some (.null, cs.drop 4)
    else if hasPref "true".data cs then some (.bool true, cs.drop 4)
    else if hasPref "false".data cs then some (.bool false, cs.drop 5)
    else
      match cs with
      | [] => none
      | c :: rest =>
        if c = '"' then
          match parseStrBody (rest.length + 1) rest with
          | none => none
          | some (s, r) => some (.str (String.mk s), r)
        else if c = '[' then
          match skipWs rest with
          | [] => none
          | d :: ds =>
            if d = ']' then some (.arr .nil, ds)
            else
              match parseVal fuel (d :: ds) with
              | none => none
              | some (v, r) =>
                match parseListRest fuel r with
                | none => none
                | some (vs, r2) => some (.arr (.cons v vs), r2)
        else if c = '\x7b' then
          match skipWs rest with
          | [] => none
          | d :: ds =>
            if d = '\x7d' then some (.obj .nil, ds)
            else
              match parseKV fuel (d :: ds) with
              | none => none
              | some (k, v, r) =>
                match parseObjRest fuel r with
                | none => none
                | some (kvs, r2) => some (.obj (.cons k v kvs), r2)
        else if c = '-' then
          match parseNatTok rest with
          | none => none
          | some (n, r) => some (.num (-(n : Int)), r)
        else
          match parseNatTok cs with
          | none => none
          | some (n, r) => some (.num (n : Int), r)

/-- Parse the elements of an array after the first one: `, v ... ]`. -/
def parseListRest : Nat → List Char → Option (JsonList × List Char)
  | 0, _ => none
  | fuel + 1, cs =>
    match skipWs cs with
    | [] => none
    | d :: ds =>
      if d = ']' then some (.nil, ds)
      else if d = ',' then
        match parseVal fuel ds with
        | none => none
        | some (v, r2) =>
          match parseListRest fuel r2 with
          | none => none
          | some (vs, r3) => some (.cons v vs, r3)
      else none

/-- Parse one `"key": value` pair. -/
def parseKV : Nat → List Char → Option (String × Json × List Char)
  | 0, _ => none
  | fuel + 1, cs =>
    match skipWs cs with
    | [] => none
    | d :: ds =>
      if d = '"' then
        match parseStrBody (ds.length + 1) ds with
        | none => none
        | some (k, r) =>
          match skipWs r with
          | [] => none
          | e :: es =>
            if e = ':' then
              match parseVal fuel es with
              | none => none
              | some (v, r3) => some (String.mk k, v, r3)
            else none
      else none

/-- Parse the fields of an object after the first one: `, "k": v ... }`. -/
def parseObjRest : Nat → List Char → Option (JsonObj × List Char)
  | 0, _ => none
  | fuel + 1, cs =>
    match skipWs cs with
    | [] => none
    | d :: ds =>
      if d = '\x7d' then some (.nil, ds)
      else if d = ',' then
        match parseKV fuel ds with
        | none => none
        | some (k, v, r2) =>
          match parseObjRest fuel r2 with
          | none => none
          | some (kvs, r3) => some (.cons k v kvs, r3)
      else none
end

/-- Model of `JSON.parse`: whole-input parse, `none` models a thrown
`SyntaxError`. -/
def parseJson (s : String) : Option Json :=
  match parseVal (2 * s.length + 1) s.data with
  | none => none
  | some (v, rest) => if skipWs rest = [] then some v else none

mutual
/-- Fuel needed by `parseVal` to parse a printed value. -/
def Json.fsize : Json → Nat
  | .null => 1
  | .bool _ => 1
  | .num _ => 1
  | .str _ => 1
  | .arr vs => JsonList.fsize vs + 2
  | .obj kvs => JsonObj.fsize kvs + 2

/-- Fuel needed by `parseListRest` for the remaining elements. -/
def JsonList.fsize : JsonList → Nat
  | .nil => 0
  | .cons v vs => Json.fsize v + JsonList.fsize vs + 1

/-- Fuel needed by `parseObjRest` for the remaining fields. -/
def JsonObj.fsize : JsonObj → Nat
  | .nil => 0
  | .cons _ v kvs => Json.fsize v + JsonObj.fsize kvs + 1
end

/-- `rest` does not start with a decimal digit. -/
def numDelim (cs : List Char) : Prop := ∀ c, cs.head? = some c → isDigitCh c = false

/-- JavaScript truthiness of a JSON value. -/
def Json.truthy : Json → Bool
  | .null => false
  | .bool b => b
  | .num i => decide (i ≠ 0)
  | .str s => decide (s.data ≠ [])
  | .arr _ => true
  | .obj _ => true

/-- First binding of a key in an object. -/
def JsonObj.get : JsonObj → String → Option Json
  | .nil, _ => none
  | .cons k v kvs, key => if k = key then some v else JsonObj.get kvs key

/-- Number of elements. -/
def JsonList.length : JsonList → Nat
  | .nil => 0
  | .cons _ vs => JsonList.length vs + 1

/-- Last element. -/
def JsonList.getLast : JsonList → Option Json
  | .nil => none
  | .cons v .nil => some v
  | .cons _ (.cons v vs) => JsonList.getLast (.cons v vs)

/-- Property access `v.key` on a possibly-undefined value (`none` models
JavaScript `undefined`): defined only on objects. -/
def jsGet (v : Option Json) (key : String) : Option Json :=
  match v with
  | some (.obj kvs) => JsonObj.get kvs key
  | _ => none

/-- Truthiness of a possibly-undefined value. -/
def jsTruthy (v : Option Json) : Bool :=
  match v with
  | some x => x.truthy
  | none => false

/-- The JavaScript test `v.length > 0` (arrays and strings have a length;
for every other value `length` is `undefined` and the comparison is false). -/
def jsLengthPos (v : Option Json) : Bool :=
  match v with
  | some (.arr vs) => decide (0 < vs.length)
  | some (.str s) => decide (s.data ≠ [])
  | _ => false

/-- The JavaScript expression `v[v.length - 1]` for arrays and strings. -/
def jsLast (v : Option Json) : Option Json :=
  match v with
  | some (.arr vs) => vs.getLast
  | some (.str s) => (s.data.getLast?).map (fun c => .str (String.mk [c]))
  | _ => none

/-- Model of `parseInt(x) || 0` as used on SSE frame ids: leading whitespace,
optional sign, then leading decimal digits; `NaN` (no digits, or an undefined
argument) yields 0 through `|| 0`. -/
def parseIntJS (s : Option String) : Int :=
  match s with
  | none => 0
  | some str =>
    match str.data.dropWhile isWsChar with
    | [] => 0
    | d :: rest =>
      if d = '-' then
        (if (rest.takeWhile isDigitCh) = [] then 0
         else -((digitsToNat 0 (rest.takeWhile isDigitCh) : Int)))
      else if d = '+' then
        (if (rest.takeWhile isDigitCh) = [] then 0
         else (digitsToNat 0 (rest.takeWhile isDigitCh) : Int))
      else
        (if ((d :: rest).takeWhile isDigitCh) = [] then 0
         else (digitsToNat 0 ((d :: rest).takeWhile isDigitCh) : Int))

/-- `n.toString()` for the sequence numbers attached to result broadcasts. -/
def natToString (n : Nat) : String := String.mk (natChars n)

/-- The event object built by `IRAService.parseSSEData`: fields are present
(`some`) only when the corresponding line kind was seen. -/
structure SSEEvent where
  type : Option String := none
  data : Option Json := none
  id : Option String := none
deriving DecidableEq

/-- `JSON.parse(dataContent)` with the `catch` fallback keeping the raw string. -/
def jsValue (s : String) : Json := (parseJson s).getD (.str s)

namespace IRAService

/-- One iteration of the line loop in `parseSSEData`. -/
def processLine (ev : SSEEvent) (line : List Char) : SSEEvent :=
  if hasPref "event:".data line then
    { ev with type := some (String.mk (trimChars (line.drop 6))) }
  else if hasPref "data:".data line then
    if trimChars (line.drop 5) = [] then ev
    else { ev with data := some (jsValue (String.mk (trimChars (line.drop 5)))) }
  else if hasPref "id:".data line then
    { ev with id := some (String.mk (trimChars (line.drop 3))) }
  else ev

/-- Model of `IRAService.parseSSEData`: trim, split on newlines, fold the
recognized line kinds into an event object; `null` when no field was set. -/
def parseSSEData (sseData : String) : Option SSEEvent :=
  let event := (splitNL (trimChars sseData.data)).foldl processLine {}
  if event.type = none ∧ event.data = none ∧ event.id = none then none else some event

/-- Side metadata carried by classified `messages` frames
(`messageType` may be JavaScript `undefined`, modelled as `none`). -/
structure MsgMeta where
  messageType : Option Json
  toolCalls : Json
deriving DecidableEq

/-- The classifier result of `IRAService.processStreamEvent`. -/
structure ResultData where
  type : String
  content : Json
  sequence : Int
  metadata : Option MsgMeta := none
deriving DecidableEq

/-- Model of `IRAService.processStreamEvent`: classify a parsed SSE event into
a result, or `null` when it carries nothing meaningful. -/
def processStreamEvent (ev : SSEEvent) : Option ResultData :=
  match ev.data with
  | none => none
  | some d =>
    if d.truthy = false then none
    else if ev.type = some "metadata" then
      some { type := "METADATA", content := d, sequence := parseIntJS ev.id }
    else if ev.type = some "values" then
      if jsTruthy (jsGet (some d) "messages") && jsLengthPos (jsGet (some d) "messages")
          && jsTruthy (jsGet (jsLast (jsGet (some d) "messages")) "content") then
        some { type := "THINKING"
               content := (jsGet (jsLast (jsGet (some d) "messages")) "content").getD .null
               sequence := parseIntJS ev.id }
      else if jsTruthy (jsGet (some d) "final_result") then
        some { type := "REPORT"
               content := (jsGet (some d) "final_result").getD .null
               sequence := parseIntJS ev.id }
      else none
    else if ev.type = some "messages" then
      match d with
      | .arr vs =>
        if jsTruthy vs.getLast && jsTruthy (jsGet vs.getLast "content") then
          some { type :=
                   if jsTruthy (jsGet vs.getLast "tool_calls")
                       && jsLengthPos (jsGet vs.getLast "tool_calls")
                   then "THINKING" else "INTERMEDIATE"
                 content := (jsGet vs.getLast "content").getD .null
                 sequence := parseIntJS ev.id
                 metadata := some { messageType := jsGet vs.getLast "type"
                                    toolCalls :=
                                      if jsTruthy (jsGet vs.getLast "tool_calls") then
                                        (jsGet vs.getLast "tool_calls").getD .null
                                      else .arr .nil } }
        else none
      | _ => none
    else
      some { type := "INTERMEDIATE"
             content := .str (Json.stringify d)
             sequence := parseIntJS ev.id }

end IRAService

namespace StreamService

/-- One broadcast via `sseManager.broadcastToSearch`, with the payload fields
the orchestrator fills in (timestamps omitted). -/
structure BroadcastRec where
  eventType : String
  payloadStatus : Option String := none
  payloadMessage : Option String := none
  payloadType : Option String := none
  payloadContent : Option Json := none
  payloadSequence : Option Nat := none
  payloadTotalResults : Option Nat := none
  payloadCode : Option String := none
  eventId : Option String := none
deriving DecidableEq

/-- One row written by `prisma.searchResult.create` (constant and wall-clock
fields omitted). -/
structure SearchResultRecord where
  resultType : String
  title : String
  content : String
  sequence : Nat
  metadata : Option IRAService.MsgMeta
deriving DecidableEq

/-- A durably-recorded effect of the consumption loop, in execution order. -/
inductive SessionAction where
  | persist : SearchResultRecord → SessionAction
  | broadcast : BroadcastRec → SessionAction
deriving DecidableEq

/-- Model of `generateResultTitle` (the source takes the content too but
never reads it). -/
def generateResultTitle (type : String) (_content : Json) : String :=
  if type = "THINKING" then "AI Analysis Process"
  else if type = "INTERMEDIATE" then "Intermediate Finding"
  else if type = "REPORT" then "Final Analysis Report"
  else type ++ " Result"

/-- Model of `formatResultContent` (the source pretty-prints non-string
content with `JSON.stringify(content, null, 2)`; the model keeps the compact
serialization, a whitespace-only difference). -/
def formatResultContent (content : Json) : String :=
  match content with
  | .str s => s
  | v => Json.stringify v

/-- Per-session orchestrator state: the `streamInfo` counter, the latest
`searchQuery.metadata` fields, `activeStreams` membership, and the action
log. -/
structure SessionState where
  sequence : Nat
  status : String
  totalResults : Option Nat
  errorMsg : Option String
  active : Bool
  actions : List SessionAction
deriving DecidableEq

/-- The rows persisted so far, in creation order. -/
def persistedOf (acts : List SessionAction) : List SearchResultRecord :=
  acts.filterMap (fun a => match a with | .persist r => some r | _ => none)

/-- The broadcasts so far, in emission order. -/
def broadcastsOf (acts : List SessionAction) : List BroadcastRec :=
  acts.filterMap (fun a => match a with | .broadcast b => some b | _ => none)

/-- Model of `SearchStreamService.processStreamEvent` on one complete frame:
parse, classify, increment the sequence, persist unless METADATA, broadcast. -/
def processStreamEvent (st : SessionState) (eventData : String) : SessionState :=
  match IRAService.parseSSEData eventData with
  | none => st
  | some parsed =>
    match IRAService.processStreamEvent parsed with
    | none => st
    | some resultData =>
      let seq := st.sequence + 1
      { st with
        sequence := seq
        actions := st.actions ++
          (if resultData.type ≠ "METADATA" then
            [SessionAction.persist
              { resultType := resultData.type
                title := generateResultTitle resultData.type resultData.content
                content := formatResultContent resultData.content
                sequence := seq
                metadata := resultData.metadata }]
          else []) ++
          [SessionAction.broadcast
            { eventType := "result"
              payloadType := some resultData.type
              payloadContent := some resultData.content
              payloadSequence := some seq
              eventId := some (natToString seq) }] }

/-- Model of `completeSearch`: overwrite the session metadata with COMPLETED
and `totalResults`, broadcast `complete`, drop the `activeStreams` entry. -/
def completeSearch (st : SessionState) : SessionState :=
  { st with
    status := "COMPLETED"
    totalResults := some st.sequence
    errorMsg := none
    active := false
    actions := st.actions ++
      [SessionAction.broadcast
        { eventType := "complete", payloadTotalResults := some st.sequence }] }

/-- Model of `failSearch`: overwrite the session metadata with FAILED, the
error message and `totalResults`, broadcast `error`, drop the entry. -/
def failSearch (msg : String) (st : SessionState) : SessionState :=
  { st with
    status := "FAILED"
    totalResults := some st.sequence
    errorMsg := some msg
    active := false
    actions := st.actions ++
      [SessionAction.broadcast
        { eventType := "error", payloadMessage := some msg,
          payloadCode := some "SEARCH_FAILED" }] }

/-- Model of `stopStream`: a no-op unless the session still has an
`activeStreams` entry, otherwise exactly `failSearch` with the fixed
message. -/
def stopStream (st : SessionState) : SessionState :=
  if st.active then failSearch "Stream stopped by user" st else st

/-- Split a character list at each `"\n\n"` (model of JS `split('\n\n')`). -/
def splitBlank : List Char → List (List Char)
  | [] => [[]]
  | [c] => [[c]]
  | c :: d :: cs =>
    if c = '\n' && d = '\n' then [] :: splitBlank cs
    else
      match splitBlank (d :: cs) with
      | [] => [[c]]
      | l :: ls => (c :: l) :: ls

/-- The orchestrator's stream-consumption state: session state plus the
chunk reassembly buffer of `processIRAStream`. -/
structure StreamState where
  session : SessionState
  buffer : List Char
deriving DecidableEq

/-- External happenings that drive one session: stream chunks, stream end,
stream error, and user-initiated stop. -/
inductive StreamEv where
  | chunk : String → StreamEv
  | endEv : StreamEv
  | errorEv : String → StreamEv
  | stop : StreamEv
deriving DecidableEq

/-- The `data` handler of `processIRAStream`: append the chunk, split into
complete frames, keep the dangling part, process each nonempty frame. -/
def onData (ss : StreamState) (chunk : String) : StreamState :=
  let parts := splitBlank (ss.buffer ++ chunk.data)
  let sess := parts.dropLast.foldl
    (fun st ed => if trimChars ed = [] then st
      else processStreamEvent st (String.mk (trimChars ed))) ss.session
  { session := sess, buffer := (parts.getLast?).getD [] }

/-- The `end` handler: flush the dangling buffer, then `completeSearch`. -/
def onEnd (ss : StreamState) : StreamState :=
  let sess :=
    if trimChars ss.buffer = [] then ss.session
    else processStreamEvent ss.session (String.mk (trimChars ss.buffer))
  { session := completeSearch sess, buffer := ss.buffer }

/-- One external happening applied to the stream state. -/
def step (ss : StreamState) : StreamEv → StreamState
  | .chunk c => onData ss c
  | .endEv => onEnd ss
  | .errorEv msg => { ss with session := failSearch msg ss.session }
  | .stop => { ss with session := stopStream ss.session }

/-- The status broadcast issued before the upstream thread creation. -/
def startupBroadcast1 : SessionAction :=
  SessionAction.broadcast
    { eventType := "status", payloadStatus := some "PROCESSING",
      payloadMessage := some "Creating IRA thread..." }

/-- The status broadcast issued after successful thread creation. -/
def startupBroadcast2 : SessionAction :=
  SessionAction.broadcast
    { eventType := "status", payloadStatus := some "PROCESSING",
      payloadMessage := some "Thread created, starting analysis..." }

/-- The two broadcasts issued by `startStreamSearch` before streaming. -/
def startupBroadcasts : List SessionAction := [startupBroadcast1, startupBroadcast2]

/-- Session state right after a fully successful `startStreamSearch`:
status PROCESSING, counter 0, an `activeStreams` entry, no persisted rows. -/
def initialSession : SessionState :=
  { sequence := 0, status := "PROCESSING", totalResults := none,
    errorMsg := none, active := true, actions := startupBroadcasts }

/-- Stream state at the start of `processIRAStream`. -/
def initialStream : StreamState := { session := initialSession, buffer := [] }

/-- Run a whole sequence of external happenings. -/
def runStream (evs : List StreamEv) : StreamState := evs.foldl step initialStream

/-- Outcome of `startStreamSearch` as observable through the persistence and
broadcast collaborators: the successive `searchQuery.metadata.status` writes
made by `startStreamSearch` itself, its broadcasts, and whether streaming
began (an `activeStreams` entry was created and `processIRAStream` attached).
`threadOk` is whether the upstream `createThread` call succeeds, `streamOk`
whether the upstream `startStream` call succeeds; `errMsg` the error message
of the failed call, `iraErr` whether it is an `IRAServiceError`. -/
structure StartResult where
  statusWrites : List String
  actions : List SessionAction
  started : Bool
deriving DecidableEq

/-- Model of `SearchStreamService.startStreamSearch`.  Note the order in the
source: the PROCESSING status write and broadcast happen before the upstream
thread-creation call. -/
def startStreamSearch (threadOk streamOk : Bool) (errMsg : String) (iraErr : Bool) :
    StartResult :=
  let failActs : List SessionAction :=
    [SessionAction.broadcast
      { eventType := "error", payloadMessage := some errMsg,
        payloadCode := some (if iraErr then "IRA_SERVICE_ERROR" else "STREAM_ERROR") }]
  if threadOk = false then
    { statusWrites := ["PROCESSING", "FAILED"]
      actions := [startupBroadcast1] ++ failActs
      started := false }
  else if streamOk = false then
    { statusWrites := ["PROCESSING", "FAILED"]
      actions := startupBroadcasts ++ failActs
      started := false }
  else
    { statusWrites := ["PROCESSING"]
      actions := startupBroadcasts
      started := true }

/-- Model of `searchService.performStreamingSearch`: the caller first creates
the session row with status INITIATED, then calls `startStreamSearch`. -/
def performStreamingSearch (threadOk streamOk : Bool) (errMsg : String) (iraErr : Bool) :
    StartResult :=
  let r := startStreamSearch threadOk streamOk errMsg iraErr
  { r with statusWrites := "INITIATED" :: r.statusWrites }

end StreamService

namespace SSE

/-- An abstract downstream transport: whether writes currently throw, the
events successfully written (as the `(type, data, id)` triple serialized by
`sendEvent` — see `sseEventChars` for the bytes), and whether `end()` was
called. -/
structure Transport where
  failing : Bool
  written : List (String × Json × Option String)
  ended : Bool
deriving DecidableEq

/-- One `SSEConnection`. -/
structure Conn where
  id : Nat
  searchId : String
  userId : String
  transport : Transport
  connected : Bool
  heartbeatActive : Bool
deriving DecidableEq

/-- The synthetic `connected` payload (timestamp omitted). -/
def connectedPayload (searchId : String) : Json :=
  .obj (.cons "searchId" (.str searchId) .nil)

/-- The `disconnect` payload. -/
def disconnectPayload : Json :=
  .obj (.cons "message" (.str "Connection closed by server") .nil)

/-- Model of `SSEConnection.sendEvent`: refuse when disconnected; a throwing
write marks the connection disconnected and reports failure; otherwise the
serialized event reaches the transport. -/
def sendEvent (c : Conn) (type : String) (data : Json) (id : Option String) :
    Conn × Bool :=
  if c.connected = false then (c, false)
  else if c.transport.failing then ({ c with connected := false }, false)
  else
    ({ c with transport :=
        { c.transport with written := c.transport.written ++ [(type, data, id)] } },
      true)

/-- Model of `SSEConnection.close`: stop the heartbeat; if still connected,
send a final `disconnect` event and end the transport; mark disconnected. -/
def close (c : Conn) : Conn :=
  let c1 : Conn := { c with heartbeatActive := false }
  if c1.connected then
    let c2 := (sendEvent c1 "disconnect" disconnectPayload none).1
    { c2 with transport := { c2.transport with ended := true }, connected := false }
  else
    { c1 with connected := false }

/-- A fresh `SSEConnection` (constructor): connected, heartbeat scheduled,
and the synthetic `connected` event sent immediately. -/
def newConn (id : Nat) (searchId userId : String) (failing : Bool) : Conn :=
  (sendEvent
    { id := id, searchId := searchId, userId := userId,
      transport := { failing := failing, written := [], ended := false },
      connected := true, heartbeatActive := true }
    "connected" (connectedPayload searchId) none).1

/-- Lookup in a `Map<String, Set<id>>`. -/
def mapGet : List (String × List Nat) → String → Option (List Nat)
  | [], _ => none
  | (k', v) :: rest, k => if k' = k then some v else mapGet rest k

/-- Add an id under a key, creating the set if absent. -/
def mapAdd : List (String × List Nat) → String → Nat → List (String × List Nat)
  | [], k, id => [(k, [id])]
  | (k', v) :: rest, k, id =>
    if k' = k then (k', v ++ [id]) :: rest else (k', v) :: mapAdd rest k id

/-- Remove an id from the set under a key, dropping the key when the set
empties (as `removeConnection` does). -/
def mapRemove : List (String × List Nat) → String → Nat → List (String × List Nat)
  | [], _, _ => []
  | (k', v) :: rest, k, id =>
    if k' = k then
      if v.erase id = [] then rest else (k', v.erase id) :: rest
    else (k', v) :: mapRemove rest k id

/-- The connection heap, by id. -/
def storeGet (store : List Conn) (id : Nat) : Option Conn :=
  store.find? (fun c => c.id = id)

/-- Update the connection object with this id in place. -/
def storeSet (store : List Conn) (id : Nat) (f : Conn → Conn) : List Conn :=
  store.map (fun c => if c.id = id then f c else c)

/-- The `SSEManager`. -/
structure Manager where
  store : List Conn
  connections : List (String × List Nat)
  userConnections : List (String × List Nat)
  maxConnections : Nat
  nextId : Nat
deriving DecidableEq

/-- `getTotalConnectionCount`: sum of the per-search set sizes. -/
def totalConnections (m : Manager) : Nat :=
  (m.connections.map (fun p => p.2.length)).sum

/-- Model of `SSEManager.addConnection`: reject at the global ceiling before
touching anything; otherwise construct the connection (which sends the
synthetic `connected` event) and register it under both keys. -/
def addConnection (m : Manager) (searchId userId : String) (failing : Bool) :
    Except String (Manager × Nat) :=
  if totalConnections m ≥ m.maxConnections then
    .error "Maximum SSE connections exceeded"
  else
    .ok ({ m with
        store := m.store ++ [newConn m.nextId searchId userId failing]
        connections := mapAdd m.connections searchId m.nextId
        userConnections := mapAdd m.userConnections userId m.nextId
        nextId := m.nextId + 1 },
      m.nextId)

/-- Model of `SSEManager.removeConnection`: drop the connection from both
registries (removing emptied sets) and close it. -/
def removeConnection (m : Manager) (cid : Nat) : Manager :=
  match storeGet m.store cid with
  | none => m
  | some c =>
    { m with
      connections := mapRemove m.connections c.searchId cid
      userConnections := mapRemove m.userConnections c.userId cid
      store := storeSet m.store cid close }

/-- The write loop of `broadcastToSearch` over the set of ids: thread the
heap, count successes, accumulate failed connections. -/
def broadcastLoop (type : String) (data : Json) (eventId : Option String) :
    List Nat → List Conn × Nat × List Nat → List Conn × Nat × List Nat
  | [], acc => acc
  | cid :: ids, (store, succ, failed) =>
    match storeGet store cid with
    | none => broadcastLoop type data eventId ids (store, succ, failed)
    | some c =>
      let r := sendEvent c type data eventId
      broadcastLoop type data eventId ids
        (storeSet store cid (fun _ => r.1),
         if r.2 then succ + 1 else succ,
         if r.2 then failed else failed ++ [cid])

/-- Model of `SSEManager.broadcastToSearch`: write to every connection of the
search independently, then remove the failed ones; the result is the number
of successful deliveries (0 when nobody is subscribed). -/
def broadcastToSearch (m : Manager) (searchId : String) (type : String)
    (data : Json) (eventId : Option String) : Manager × Nat :=
  match mapGet m.connections searchId with
  | none => (m, 0)
  | some ids =>
    if ids.length = 0 then (m, 0)
    else
      let r := broadcastLoop type data eventId ids (m.store, 0, [])
      (r.2.2.foldl removeConnection { m with store := r.1 }, r.2.1)

end SSE

/-- The characters `sendEvent` writes for one event: an `id:` line when a
truthy id is supplied, then the `event:` line, then the `data:` line with the
JSON payload, then the blank-line terminator. -/
def sseEventChars (type : String) (data : Json) (id : Option String) : List Char :=
  (match id with
   | none => []
   | some s => if s.data = [] then [] else "id: ".data ++ s.data ++ ['\n']) ++
  ("event: ".data ++ type.data ++ ['\n'] ++
    ("data: ".data ++ (Json.stringify data).data ++ ['\n', '\n']))

/-- The serialized SSE block for one event. -/
def serializeEvent (type : String) (data : Json) (id : Option String) : String :=
  String.mk (sseEventChars type data id)

namespace StreamService

/-- What one frame contributes: nothing, or an optional persisted row (absent
exactly for METADATA) together with the result broadcast; `seq` is the
counter value before the step. -/
def frameEffect (seq : Nat) (eventData : String) :
    Option (Option SearchResultRecord × BroadcastRec) :=
  match IRAService.parseSSEData eventData with
  | none => none
  | some parsed =>
    match IRAService.processStreamEvent parsed with
    | none => none
    | some resultData =>
      some
        ((if resultData.type ≠ "METADATA" then
            some
              { resultType := resultData.type
                title := generateResultTitle resultData.type resultData.content
                content := formatResultContent resultData.content
                sequence := seq + 1
                metadata := resultData.metadata }
          else none),
          { eventType := "result"
            payloadType := some resultData.type
            payloadContent := some resultData.content
            payloadSequence := some (seq + 1)
            eventId := some (natToString (seq + 1)) })

/-- The result broadcasts among a list of actions, in order. -/
def resultBroadcasts (acts : List SessionAction) : List BroadcastRec :=
  (broadcastsOf acts).filter (fun b => b.eventType = "result")

/-- Run the consumption loop on a list of complete frames. -/
def runFrames (frames : List String) : SessionState :=
  frames.foldl processStreamEvent initialSession

/-- The session invariant maintained by the consumption loop. -/
def SeqInv (st : SessionState) : Prop :=
  ((resultBroadcasts st.actions).map (fun b => b.payloadSequence)
    = (List.range st.sequence).map (fun i => some (i + 1))) ∧
  List.Chain' (fun a b => a < b) ((persistedOf st.actions).map (fun r => r.sequence)) ∧
  (∀ q ∈ (persistedOf st.actions).map (fun r => r.sequence), 1 ≤ q ∧ q ≤ st.sequence)

/-- Scenario A of the design document, delivered as one upstream chunk:
a `metadata` frame, a `values` frame with a trailing message, and a `values`
frame with a `final_result` field, followed by natural stream end. -/
def scenarioAChunk : String :=
  "event: metadata\ndata: \x7b\"run_id\":\"r1\"\x7d\n\nevent: values\ndata: \x7b\"messages\":[\x7b\"content\":\"Looking into X\"\x7d]\x7d\n\nevent: values\ndata: \x7b\"final_result\":\"Report body\"\x7d\n\n"

/-- The orchestrator state after scenario A. -/
def scenarioA : StreamState := runStream [StreamEv.chunk scenarioAChunk, StreamEv.endEv]

end StreamService

/-- The metadata frame of scenario A, as the consumption loop sees it. -/
def metadataFrameA : String := "event: metadata\ndata: \x7b\"run_id\":\"r1\"\x7d"

namespace StreamService

/-- Counter increment contributed by one frame. -/
def seqEffect (seq : Nat) (ed : String) : Nat :=
  match frameEffect seq ed with
  | none => 0
  | some _ => 1

/-- Rows persisted by one frame. -/
def persistEffect (seq : Nat) (ed : String) : List SearchResultRecord :=
  match frameEffect seq ed with
  | some (some r, _) => [r]
  | _ => []

end StreamService

/-- A `values` frame arriving as a chunk after the user stopped the search. -/
def lateChunk : String := "event: values\ndata: \x7b\"final_result\":\"late\"\x7d\n\n"


/-! ## Theorems -/

theorem digitsToNat_nil (acc : Nat) : digitsToNat acc [] = acc := rfl

theorem digitsToNat_cons (acc : Nat) (c : Char) (cs : List Char) :
    digitsToNat acc (c :: cs) = digitsToNat (acc * 10 + digitVal c) cs := rfl

theorem digitVal_decDigitChar {d : Nat} (h : d < 10) :
    digitVal (decDigitChar d) = d := by
  interval_cases d <;> decide

theorem isDigitCh_decDigitChar {d : Nat} (h : d < 10) :
    isDigitCh (decDigitChar d) = true := by
  interval_cases d <;> decide

theorem natCharsFuel_digits : ∀ fuel n, ∀ c ∈ natCharsFuel fuel n, isDigitCh c = true := by
  intro fuel
  induction fuel with
  | zero => intro n c hc; simp [natCharsFuel] at hc
  | succ fuel ih =>
    intro n c hc
    simp only [natCharsFuel] at hc
    split at hc
    · simp at hc
    · rcases List.mem_cons.mp hc with hc | hc
      · subst hc
        exact isDigitCh_decDigitChar (Nat.mod_lt _ (by norm_num))
      · exact ih (n / 10) c hc

theorem natChars_digits (n : Nat) : ∀ c ∈ natChars n, isDigitCh c = true := by
  intro c hc
  unfold natChars at hc
  split at hc
  · simp at hc; subst hc; decide
  · rw [List.mem_reverse] at hc
    exact natCharsFuel_digits n n c hc

theorem digitsToNat_append (acc : Nat) (l₁ l₂ : List Char) :
    digitsToNat acc (l₁ ++ l₂) = digitsToNat (digitsToNat acc l₁) l₂ := by
  induction l₁ generalizing acc with
  | nil => rfl
  | cons c cs ih => exact ih (acc * 10 + digitVal c)

theorem digitsToNat_natCharsFuel : ∀ fuel n acc, n ≤ fuel →
    digitsToNat acc (natCharsFuel fuel n).reverse =
      acc * 10 ^ (natCharsFuel fuel n).length + n := by
  intro fuel
  induction fuel with
  | zero =>
    intro n acc h
    interval_cases n
    simp [natCharsFuel, digitsToNat_nil]
  | succ fuel ih =>
    intro n acc h
    simp only [natCharsFuel]
    split
    · simp [digitsToNat_nil, *]
    · simp only [List.reverse_cons, List.length_cons]
      have hdiv : n / 10 ≤ fuel := by
        have : n / 10 < n := Nat.div_lt_self (Nat.pos_of_ne_zero (by assumption)) (by norm_num)
        omega
      rw [digitsToNat_append, ih (n / 10) acc hdiv, digitsToNat_cons, digitsToNat_nil,
        digitVal_decDigitChar (Nat.mod_lt _ (by norm_num : (0:Nat) < 10)), pow_succ,
        ← mul_assoc]
      generalize acc * 10 ^ (natCharsFuel fuel (n / 10)).length = A
      omega

/-- Reading back the decimal representation of `n` recovers `n`. -/
theorem digitsToNat_natChars (n : Nat) : digitsToNat 0 (natChars n) = n := by
  unfold natChars
  split
  · subst_vars; decide
  · rw [digitsToNat_natCharsFuel n n 0 (le_refl n)]
    simp

theorem hasPref_nil (cs : List Char) : hasPref [] cs = true := rfl

theorem hasPref_cons (p : Char) (ps : List Char) (c : Char) (cs : List Char) :
    hasPref (p :: ps) (c :: cs) = (decide (p = c) && hasPref ps cs) := rfl

theorem hasPref_append (p rest : List Char) : hasPref p (p ++ rest) = true := by
  induction p with
  | nil => rfl
  | cons c cs ih => simp [hasPref_cons, ih]

theorem splitNL_nil : splitNL [] = [[]] := rfl

theorem splitNL_not_nl (cs : List Char) (h : '\n' ∉ cs) : splitNL cs = [cs] := by
  induction cs with
  | nil => rfl
  | cons c cs ih =>
    simp only [List.mem_cons, not_or] at h
    rw [splitNL]
    rw [if_neg (by simpa using (Ne.symm h.1)), ih h.2]

theorem splitNL_append (a b : List Char) (h : '\n' ∉ a) :
    splitNL (a ++ '\n' :: b) = a :: splitNL b := by
  induction a with
  | nil => simp [splitNL]
  | cons c cs ih =>
    simp only [List.mem_cons, not_or] at h
    rw [List.cons_append, splitNL, if_neg (by simpa using (Ne.symm h.1)), ih h.2]

theorem dropWhile_ws_append (a b : List Char) (h : ∀ c ∈ a, isWsChar c = true) :
    (a ++ b).dropWhile isWsChar = b.dropWhile isWsChar := by
  induction a with
  | nil => rfl
  | cons c cs ih =>
    rw [List.cons_append, List.dropWhile_cons, if_pos (h c (by simp))]
    exact ih (fun c hc => h c (by simp [hc]))

theorem dropWhile_ws_of_head (c : Char) (cs : List Char) (h : isWsChar c = false) :
    (c :: cs).dropWhile isWsChar = c :: cs := by
  rw [List.dropWhile_cons, if_neg (by simp [h])]

/-- Trimming a list that neither starts nor ends with whitespace is the identity. -/
theorem trimChars_eq_self (cs : List Char)
    (h1 : ∀ c, cs.head? = some c → isWsChar c = false)
    (h2 : ∀ c, cs.getLast? = some c → isWsChar c = false) :
    trimChars cs = cs := by
  unfold trimChars
  match hcs : cs with
  | [] => rfl
  | c :: rest =>
    rw [dropWhile_ws_of_head c rest (h1 c rfl)]
    match hrev : (c :: rest).reverse with
    | [] => exact absurd (List.reverse_eq_nil_iff.mp hrev) (by simp)
    | d :: ds =>
      have hlast : (c :: rest).getLast? = some d := by
        rw [List.getLast?_eq_head?_reverse, hrev]; rfl
      rw [dropWhile_ws_of_head d ds (h2 d hlast), ← hrev, List.reverse_reverse]

/-- Trailing whitespace is removed by `trimChars`. -/
theorem trimChars_append_ws (cs ws : List Char) (h : ∀ c ∈ ws, isWsChar c = true) :
    trimChars (cs ++ ws) = trimChars cs := by
  unfold trimChars
  induction cs with
  | nil =>
    simp only [List.nil_append]
    have hws : List.dropWhile isWsChar ws = [] :=
      List.dropWhile_eq_nil_iff.mpr (fun c hc => by simp [h c hc])
    rw [hws]
    rfl
  | cons c cs ih =>
    rw [List.cons_append, List.dropWhile_cons, List.dropWhile_cons]
    by_cases hc : isWsChar c = true
    · rw [if_pos (by simp [hc]), if_pos (by simp [hc])]
      exact ih
    · rw [if_neg (by simpa using hc), if_neg (by simpa using hc)]
      simp only [List.reverse_cons, List.reverse_append, List.append_assoc]
      rw [dropWhile_ws_append ws.reverse _ (fun x hx => h x (List.mem_reverse.mp hx))]

/-- Leading whitespace is removed by `trimChars`. -/
theorem trimChars_ws_append (ws cs : List Char) (h : ∀ c ∈ ws, isWsChar c = true) :
    trimChars (ws ++ cs) = trimChars cs := by
  unfold trimChars
  rw [dropWhile_ws_append ws cs h]

theorem escChars_nil : escChars [] = [] := rfl

theorem escChars_cons (c : Char) (cs : List Char) :
    escChars (c :: cs) = escChar c ++ escChars cs := rfl

theorem parseStrBody_zero (cs : List Char) : parseStrBody 0 cs = none := rfl

theorem parseStrBody_nil (fuel : Nat) : parseStrBody (fuel + 1) [] = none := rfl

theorem parseStrBody_cons (fuel : Nat) (c : Char) (cs : List Char) :
    parseStrBody (fuel + 1) (c :: cs) =
      (if c = '"' then some ([], cs)
      else if c = '\\' then
        match cs with
        | [] => none
        | e :: cs2 =>
          match unescChar e with
          | none => none
          | some u =>
            match parseStrBody fuel cs2 with
            | none => none
            | some (s, rest) => some (u :: s, rest)
      else
        match parseStrBody fuel cs with
        | none => none
        | some (s, rest) => some (c :: s, rest)) := rfl

theorem escChar_spec (c : Char) :
    (escChar c = [c] ∧ c ≠ '"' ∧ c ≠ '\\') ∨
    (∃ e, escChar c = ['\\', e] ∧ unescChar e = some c) := by
  by_cases h1 : c = '"'
  · subst h1; right; exact ⟨'"', by decide, by decide⟩
  · by_cases h2 : c = '\\'
    · subst h2; right; exact ⟨'\\', by decide, by decide⟩
    · by_cases h3 : c = '\n'
      · subst h3; right; exact ⟨'n', by decide, by decide⟩
      · by_cases h4 : c = '\r'
        · subst h4; right; exact ⟨'r', by decide, by decide⟩
        · by_cases h5 : c = '\t'
          · subst h5; right; exact ⟨'t', by decide, by decide⟩
          · left
            refine ⟨?_, h1, h2⟩
            unfold escChar
            rw [if_neg h1, if_neg h2, if_neg h3, if_neg h4, if_neg h5]

theorem escChars_length (s : List Char) : s.length ≤ (escChars s).length := by
  induction s with
  | nil => simp [escChars_nil]
  | cons c cs ih =>
    rw [escChars_cons]
    rcases escChar_spec c with ⟨h, _, _⟩ | ⟨e, h, _⟩ <;> simp [h] <;> omega

theorem parseStrBody_quote (fuel : Nat) (cs : List Char) :
    parseStrBody (fuel + 1) ('"' :: cs) = some ([], cs) := rfl

theorem parseStrBody_esc_step (fuel : Nat) (e : Char) (cs2 : List Char) :
    parseStrBody (fuel + 1) ('\\' :: e :: cs2) =
      (match unescChar e with
      | none => none
      | some u =>
        match parseStrBody fuel cs2 with
        | none => none
        | some (s, rest) => some (u :: s, rest)) := rfl

theorem parseStrBody_plain_step (fuel : Nat) (c : Char) (cs : List Char)
    (h1 : c ≠ '"') (h2 : c ≠ '\\') :
    parseStrBody (fuel + 1) (c :: cs) =
      (match parseStrBody fuel cs with
      | none => none
      | some (s, rest) => some (c :: s, rest)) := by
  rw [parseStrBody_cons, if_neg h1, if_neg h2]

theorem parseStrBody_escChars (s : List Char) : ∀ fuel rest, s.length + 1 ≤ fuel →
    parseStrBody fuel (escChars s ++ '"' :: rest) = some (s, rest) := by
  induction s with
  | nil =>
    intro fuel rest h
    match fuel, h with
    | f + 1, _ =>
      rw [escChars_nil, List.nil_append, parseStrBody_quote]
  | cons c cs ih =>
    intro fuel rest h
    match fuel, h with
    | f + 1, h =>
      have hcs : cs.length + 1 ≤ f := by simp at h; omega
      rw [escChars_cons]
      rcases escChar_spec c with ⟨he, h1, h2⟩ | ⟨e, he, hu⟩
      · rw [he, List.singleton_append, List.cons_append,
          parseStrBody_plain_step f c _ h1 h2, ih f rest hcs]
      · rw [he, List.cons_append, List.singleton_append, List.cons_append,
          List.cons_append, parseStrBody_esc_step, hu, ih f rest hcs]

theorem numDelim_nil : numDelim [] := fun c h => by simp at h

theorem numDelim_cons (c : Char) (cs : List Char) (h : isDigitCh c = false) :
    numDelim (c :: cs) := by
  intro d hd
  simp at hd
  subst hd
  exact h

theorem takeWhile_digits_append (a rest : List Char)
    (ha : ∀ c ∈ a, isDigitCh c = true) (hr : numDelim rest) :
    (a ++ rest).takeWhile isDigitCh = a ∧ (a ++ rest).dropWhile isDigitCh = rest := by
  induction a with
  | nil =>
    simp only [List.nil_append]
    match rest with
    | [] => exact ⟨rfl, rfl⟩
    | c :: cs =>
      have := hr c rfl
      rw [List.takeWhile_cons, List.dropWhile_cons]
      constructor
      · rw [if_neg (by simp [this])]
      · rw [if_neg (by simp [this])]
  | cons c cs ih =>
    have h1 : isDigitCh c = true := ha c (by simp)
    have ⟨iht, ihd⟩ := ih (fun x hx => ha x (by simp [hx]))
    rw [List.cons_append, List.takeWhile_cons, List.dropWhile_cons]
    constructor
    · rw [if_pos (by simp [h1]), iht]
    · rw [if_pos (by simp [h1]), ihd]

theorem natChars_ne_nil (n : Nat) : natChars n ≠ [] := by
  unfold natChars
  split
  · simp
  · intro h
    rw [List.reverse_eq_nil_iff] at h
    match hn : n, h with
    | m + 1, h =>
      rw [natCharsFuel, if_neg (by omega)] at h
      exact List.noConfusion h

theorem natChars_head (n : Nat) :
    ∃ c cs, natChars n = c :: cs ∧ isDigitCh c = true := by
  match h : natChars n with
  | [] => exact absurd h (natChars_ne_nil n)
  | c :: cs =>
    exact ⟨c, cs, rfl, natChars_digits n c (h ▸ List.mem_cons_self c cs)⟩

theorem digit_ne (c x : Char) (h : isDigitCh c = true) (hx : isDigitCh x = false) :
    c ≠ x := by
  intro he
  subst he
  rw [h] at hx
  exact Bool.noConfusion hx

theorem parseNatTok_natChars (n : Nat) (rest : List Char) (hr : numDelim rest) :
    parseNatTok (natChars n ++ rest) = some (n, rest) := by
  have ⟨ht, hd⟩ := takeWhile_digits_append (natChars n) rest (natChars_digits n) hr
  unfold parseNatTok
  rw [ht, hd, if_neg (by simp [natChars_ne_nil n]), digitsToNat_natChars]

theorem chars_null : Json.chars .null = ['n', 'u', 'l', 'l'] := rfl

theorem chars_true : Json.chars (.bool true) = ['t', 'r', 'u', 'e'] := rfl

theorem chars_false : Json.chars (.bool false) = ['f', 'a', 'l', 's', 'e'] := rfl

theorem chars_num (i : Int) : Json.chars (.num i) = intChars i := rfl

theorem chars_str (s : String) :
    Json.chars (.str s) = '"' :: (escChars s.data ++ ['"']) := rfl

theorem chars_arr_nil : Json.chars (.arr .nil) = ['[', ']'] := rfl

theorem chars_arr_cons (v : Json) (vs : JsonList) :
    Json.chars (.arr (.cons v vs)) =
      '[' :: (Json.chars v ++ JsonList.chars vs ++ [']']) := rfl

theorem chars_obj_nil : Json.chars (.obj .nil) = ['\x7b', '\x7d'] := rfl

theorem chars_obj_cons (k : String) (v : Json) (kvs : JsonObj) :
    Json.chars (.obj (.cons k v kvs)) =
      '\x7b' :: (keyChars k ++ Json.chars v ++ JsonObj.chars kvs ++ ['\x7d']) := rfl

theorem lchars_nil : JsonList.chars .nil = [] := rfl

theorem lchars_cons (v : Json) (vs : JsonList) :
    JsonList.chars (.cons v vs) = ',' :: (Json.chars v ++ JsonList.chars vs) := rfl

theorem ochars_nil : JsonObj.chars .nil = [] := rfl

theorem ochars_cons (k : String) (v : Json) (kvs : JsonObj) :
    JsonObj.chars (.cons k v kvs) =
      ',' :: (keyChars k ++ Json.chars v ++ JsonObj.chars kvs) := rfl

theorem mk_data (s : String) : String.mk s.data = s := by cases s; rfl

theorem parseVal_zero (cs : List Char) : parseVal 0 cs = none := rfl

theorem parseVal_succ (fuel : Nat) (cs0 : List Char) :
    parseVal (fuel + 1) cs0 =
      (if hasPref "null".data (skipWs cs0) then some (.null, (skipWs cs0).drop 4)
      else if hasPref "true".data (skipWs cs0) then some (.bool true, (skipWs cs0).drop 4)
      else if hasPref "false".data (skipWs cs0) then some (.bool false, (skipWs cs0).drop 5)
      else
        match skipWs cs0 with
        | [] => none
        | c :: rest =>
          if c = '"' then
            match parseStrBody (rest.length + 1) rest with
            | none => none
            | some (s, r) => some (.str (String.mk s), r)
          else if c = '[' then
            match skipWs rest with
            | [] => none
            | d :: ds =>
              if d = ']' then some (.arr .nil, ds)
              else
                match parseVal fuel (d :: ds) with
                | none => none
                | some (v, r) =>
                  match parseListRest fuel r with
                  | none => none
                  | some (vs, r2) => some (.arr (.cons v vs), r2)
          else if c = '\x7b' then
            match skipWs rest with
            | [] => none
            | d :: ds =>
              if d = '\x7d' then some (.obj .nil, ds)
              else
                match parseKV fuel (d :: ds) with
                | none => none
                | some (k, v, r) =>
                  match parseObjRest fuel r with
                  | none => none
                  | some (kvs, r2) => some (.obj (.cons k v kvs), r2)
          else if c = '-' then
            match parseNatTok rest with
            | none => none
            | some (n, r) => some (.num (-(n : Int)), r)
          else
            match parseNatTok (skipWs cs0) with
            | none => none
            | some (n, r) => some (.num (n : Int), r)) := rfl

theorem parseListRest_succ (fuel : Nat) (cs : List Char) :
    parseListRest (fuel + 1) cs =
      (match skipWs cs with
      | [] => none
      | d :: ds =>
        if d = ']' then some (.nil, ds)
        else if d = ',' then
          match parseVal fuel ds with
          | none => none
          | some (v, r2) =>
            match parseListRest fuel r2 with
            | none => none
            | some (vs, r3) => some (.cons v vs, r3)
        else none) := rfl

theorem parseKV_succ (fuel : Nat) (cs : List Char) :
    parseKV (fuel + 1) cs =
      (match skipWs cs with
      | [] => none
      | d :: ds =>
        if d = '"' then
          match parseStrBody (ds.length + 1) ds with
          | none => none
          | some (k, r) =>
            match skipWs r with
            | [] => none
            | e :: es =>
              if e = ':' then
                match parseVal fuel es with
                | none => none
                | some (v, r3) => some (String.mk k, v, r3)
              else none
        else none) := rfl

theorem parseObjRest_succ (fuel : Nat) (cs : List Char) :
    parseObjRest (fuel + 1) cs =
      (match skipWs cs with
      | [] => none
      | d :: ds =>
        if d = '\x7d' then some (.nil, ds)
        else if d = ',' then
          match parseKV fuel ds with
          | none => none
          | some (k, v, r2) =>
            match parseObjRest fuel r2 with
            | none => none
            | some (kvs, r3) => some (.cons k v kvs, r3)
        else none) := rfl

theorem skipWs_cons (c : Char) (cs : List Char) (h : isWsChar c = false) :
    skipWs (c :: cs) = c :: cs := dropWhile_ws_of_head c cs h

theorem nullData : "null".data = ['n', 'u', 'l', 'l'] := rfl

theorem trueData : "true".data = ['t', 'r', 'u', 'e'] := rfl

theorem falseData : "false".data = ['f', 'a', 'l', 's', 'e'] := rfl

theorem hasPref_neq_head (x : Char) (ps : List Char) (c : Char) (cs : List Char)
    (h : x ≠ c) : hasPref (x :: ps) (c :: cs) = false := by
  rw [hasPref_cons, decide_eq_false h, Bool.false_and]

theorem digit_not_ws (c : Char) (h : isDigitCh c = true) : isWsChar c = false := by
  unfold isWsChar
  rw [decide_eq_false (digit_ne c ' ' h (by decide)),
    decide_eq_false (digit_ne c '\t' h (by decide)),
    decide_eq_false (digit_ne c '\n' h (by decide)),
    decide_eq_false (digit_ne c '\r' h (by decide))]
  rfl

theorem fsize_null : Json.fsize .null = 1 := rfl

theorem fsize_bool (b : Bool) : Json.fsize (.bool b) = 1 := rfl

theorem fsize_num (i : Int) : Json.fsize (.num i) = 1 := rfl

theorem fsize_str (s : String) : Json.fsize (.str s) = 1 := rfl

theorem fsize_arr (vs : JsonList) : Json.fsize (.arr vs) = JsonList.fsize vs + 2 := rfl

theorem fsize_obj (kvs : JsonObj) : Json.fsize (.obj kvs) = JsonObj.fsize kvs + 2 := rfl

theorem lfsize_nil : JsonList.fsize .nil = 0 := rfl

theorem lfsize_cons (v : Json) (vs : JsonList) :
    JsonList.fsize (.cons v vs) = Json.fsize v + JsonList.fsize vs + 1 := rfl

theorem ofsize_nil : JsonObj.fsize .nil = 0 := rfl

theorem ofsize_cons (k : String) (v : Json) (kvs : JsonObj) :
    JsonObj.fsize (.cons k v kvs) = Json.fsize v + JsonObj.fsize kvs + 1 := rfl

theorem fsize_pos (v : Json) : 1 ≤ Json.fsize v := by
  match v with
  | .null => exact le_refl 1
  | .bool b => exact le_refl 1
  | .num i => exact le_refl 1
  | .str s => exact le_refl 1
  | .arr vs => rw [fsize_arr]; omega
  | .obj kvs => rw [fsize_obj]; omega

/-- The first character of any printed JSON value: never whitespace and never a
closing delimiter. -/
theorem chars_shape (v : Json) : ∃ c cs, Json.chars v = c :: cs ∧
    isWsChar c = false ∧ c ≠ ']' ∧ c ≠ '\x7d' := by
  match v with
  | .null => exact ⟨'n', ['u', 'l', 'l'], chars_null, by decide, by decide, by decide⟩
  | .bool true => exact ⟨'t', ['r', 'u', 'e'], chars_true, by decide, by decide, by decide⟩
  | .bool false => exact ⟨'f', ['a', 'l', 's', 'e'], chars_false, by decide, by decide, by decide⟩
  | .str s =>
    exact ⟨'"', escChars s.data ++ ['"'], chars_str s, by decide, by decide, by decide⟩
  | .arr .nil => exact ⟨'[', [']'], chars_arr_nil, by decide, by decide, by decide⟩
  | .arr (.cons v vs) =>
    exact ⟨'[', Json.chars v ++ JsonList.chars vs ++ [']'], chars_arr_cons v vs,
      by decide, by decide, by decide⟩
  | .obj .nil => exact ⟨'\x7b', ['\x7d'], chars_obj_nil, by decide, by decide, by decide⟩
  | .obj (.cons k v kvs) =>
    exact ⟨'\x7b', keyChars k ++ Json.chars v ++ JsonObj.chars kvs ++ ['\x7d'],
      chars_obj_cons k v kvs, by decide, by decide, by decide⟩
  | .num i =>
    rw [chars_num]
    unfold intChars
    by_cases hi : i < 0
    · rw [if_pos hi]
      exact ⟨'-', natChars i.natAbs, rfl, by decide, by decide, by decide⟩
    · rw [if_neg hi]
      obtain ⟨c, cs, hnc, hdig⟩ := natChars_head i.toNat
      exact ⟨c, cs, hnc, digit_not_ws c hdig,
        digit_ne c ']' hdig (by decide), digit_ne c '\x7d' hdig (by decide)⟩

theorem numDelim_lchars (vs : JsonList) (rest : List Char) :
    numDelim (JsonList.chars vs ++ ']' :: rest) := by
  match vs with
  | .nil =>
    rw [lchars_nil, List.nil_append]
    exact numDelim_cons _ _ (by decide)
  | .cons v vs =>
    rw [lchars_cons, List.cons_append]
    exact numDelim_cons _ _ (by decide)

theorem numDelim_ochars (kvs : JsonObj) (rest : List Char) :
    numDelim (JsonObj.chars kvs ++ '\x7d' :: rest) := by
  match kvs with
  | .nil =>
    rw [ochars_nil, List.nil_append]
    exact numDelim_cons _ _ (by decide)
  | .cons k v kvs =>
    rw [ochars_cons, List.cons_append]
    exact numDelim_cons _ _ (by decide)

mutual
/-- Parsing the printed form of a value recovers the value. -/
theorem parseVal_chars : ∀ (v : Json) (fuel : Nat) (rest : List Char),
    Json.fsize v ≤ fuel → numDelim rest →
    parseVal fuel (Json.chars v ++ rest) = some (v, rest)
  | v, 0, _, hf, _ => absurd (le_trans (fsize_pos v) hf) (by omega)
  | .null, fuel + 1, rest, _, _ => by
    rw [chars_null]
    simp only [List.cons_append, List.nil_append]
    rw [parseVal_succ, skipWs_cons _ _ (by decide), nullData]
    simp [hasPref_cons, hasPref_nil]
  | .bool true, fuel + 1, rest, _, _ => by
    rw [chars_true]
    simp only [List.cons_append, List.nil_append]
    rw [parseVal_succ, skipWs_cons _ _ (by decide), nullData, trueData]
    simp [hasPref_cons, hasPref_nil]
  | .bool false, fuel + 1, rest, _, _ => by
    rw [chars_false]
    simp only [List.cons_append, List.nil_append]
    rw [parseVal_succ, skipWs_cons _ _ (by decide), nullData, trueData, falseData]
    simp [hasPref_cons, hasPref_nil]
  | .str s, fuel + 1, rest, _, _ => by
    rw [chars_str]
    simp only [List.cons_append, List.append_assoc, List.singleton_append]
    rw [parseVal_succ, skipWs_cons _ _ (by decide), nullData, trueData, falseData]
    simp only [hasPref_neq_head _ _ _ _ (by decide : 'n' ≠ '"'),
      hasPref_neq_head _ _ _ _ (by decide : 't' ≠ '"'),
      hasPref_neq_head _ _ _ _ (by decide : 'f' ≠ '"'), Bool.false_eq_true, if_false]
    have hsb := parseStrBody_escChars s.data
      ((escChars s.data).length + (rest.length + 1) + 1) rest
      (by have := escChars_length s.data; omega)
    simp [hsb, mk_data]
  | .num i, fuel + 1, rest, _, hr => by
    rw [chars_num]
    unfold intChars
    by_cases hi : i < 0
    · rw [if_pos hi]
      simp only [List.cons_append]
      rw [parseVal_succ, skipWs_cons _ _ (by decide), nullData, trueData, falseData]
      simp only [hasPref_neq_head _ _ _ _ (by decide : 'n' ≠ '-'),
        hasPref_neq_head _ _ _ _ (by decide : 't' ≠ '-'),
        hasPref_neq_head _ _ _ _ (by decide : 'f' ≠ '-'), Bool.false_eq_true, if_false]
      simp only [reduceIte]
      rw [parseNatTok_natChars i.natAbs rest hr]
      have hneg : -((i.natAbs : Int)) = i := by omega
      show some (Json.num (-((i.natAbs : Int))), rest) = some (Json.num i, rest)
      rw [hneg]
    · rw [if_neg hi]
      obtain ⟨c, cs, hnc, hdig⟩ := natChars_head i.toNat
      have h1 : c ≠ '"' := digit_ne c '"' hdig (by decide)
      have h2 : c ≠ '[' := digit_ne c '[' hdig (by decide)
      have h3 : c ≠ '\x7b' := digit_ne c '\x7b' hdig (by decide)
      have h4 : c ≠ '-' := digit_ne c '-' hdig (by decide)
      rw [hnc, List.cons_append, parseVal_succ, skipWs_cons _ _ (digit_not_ws c hdig),
        nullData, trueData, falseData,
        hasPref_neq_head _ _ _ _ (Ne.symm (digit_ne c 'n' hdig (by decide))),
        hasPref_neq_head _ _ _ _ (Ne.symm (digit_ne c 't' hdig (by decide))),
        hasPref_neq_head _ _ _ _ (Ne.symm (digit_ne c 'f' hdig (by decide)))]
      simp only [Bool.false_eq_true, if_false]
      simp only [h1, h2, h3, h4, if_false, ite_false, if_neg, reduceIte]
      have harg : c :: (cs ++ rest) = natChars i.toNat ++ rest := by
        rw [hnc, List.cons_append]
      rw [harg, parseNatTok_natChars i.toNat rest hr]
      have hpos : ((i.toNat : Int)) = i := Int.toNat_of_nonneg (le_of_not_lt hi)
      simp [hpos]
  | .arr .nil, fuel + 1, rest, _, _ => by
    rw [chars_arr_nil]
    simp only [List.cons_append, List.nil_append]
    rw [parseVal_succ, skipWs_cons _ _ (by decide), nullData, trueData, falseData]
    have hsk : skipWs (']' :: rest) = ']' :: rest := skipWs_cons _ _ (by decide)
    simp [hasPref_cons, hasPref_nil, hsk]
  | .arr (.cons v vs), fuel + 1, rest, hf, _ => by
    have hb1 : Json.fsize v ≤ fuel := by rw [fsize_arr, lfsize_cons] at hf; omega
    have hb2 : JsonList.fsize vs + 1 ≤ fuel := by rw [fsize_arr, lfsize_cons] at hf; omega
    obtain ⟨c, cs, hnc, hws, hne1, _⟩ := chars_shape v
    have hv := parseVal_chars v fuel (JsonList.chars vs ++ ']' :: rest) hb1
      (numDelim_lchars vs rest)
    have hv' : parseVal fuel (c :: (cs ++ (JsonList.chars vs ++ ']' :: rest))) =
        some (v, JsonList.chars vs ++ ']' :: rest) := by
      rw [← List.cons_append, ← hnc]; exact hv
    have hl := parseListRest_chars vs fuel rest hb2
    rw [chars_arr_cons, List.cons_append, parseVal_succ, skipWs_cons _ _ (by decide),
      nullData, trueData, falseData]
    simp only [List.append_assoc, List.singleton_append]
    rw [hnc, List.cons_append, skipWs_cons c _ hws]
    simp [hasPref_cons, hne1, hv', hl]
  | .obj .nil, fuel + 1, rest, _, _ => by
    rw [chars_obj_nil]
    simp only [List.cons_append, List.nil_append]
    rw [parseVal_succ, skipWs_cons _ _ (by decide), nullData, trueData, falseData]
    have hsk : skipWs ('\x7d' :: rest) = '\x7d' :: rest := skipWs_cons _ _ (by decide)
    simp [hasPref_cons, hasPref_nil, hsk]
  | .obj (.cons k v kvs), fuel + 1, rest, hf, _ => by
    have hb1 : Json.fsize v + 1 ≤ fuel := by rw [fsize_obj, ofsize_cons] at hf; omega
    have hb2 : JsonObj.fsize kvs + 1 ≤ fuel := by rw [fsize_obj, ofsize_cons] at hf; omega
    have hkv := parseKV_chars k v fuel (JsonObj.chars kvs ++ '\x7d' :: rest) hb1
      (numDelim_ochars kvs rest)
    have ho := parseObjRest_chars kvs fuel rest hb2
    rw [chars_obj_cons, List.cons_append, parseVal_succ, skipWs_cons _ _ (by decide),
      nullData, trueData, falseData]
    simp only [keyChars, List.cons_append, List.append_assoc, List.singleton_append,
      List.nil_append] at hkv ⊢
    rw [skipWs_cons _ _ (by decide)]
    simp [hasPref_cons, hkv, ho]

/-- Parsing the printed trailing elements recovers them. -/
theorem parseListRest_chars : ∀ (vs : JsonList) (fuel : Nat) (rest : List Char),
    JsonList.fsize vs + 1 ≤ fuel →
    parseListRest fuel (JsonList.chars vs ++ ']' :: rest) = some (vs, rest)
  | _, 0, _, hf => absurd hf (by omega)
  | .nil, fuel + 1, rest, _ => by
    rw [lchars_nil, List.nil_append, parseListRest_succ, skipWs_cons _ _ (by decide)]
    simp
  | .cons v vs, fuel + 1, rest, hf => by
    have hb1 : Json.fsize v ≤ fuel := by rw [lfsize_cons] at hf; omega
    have hb2 : JsonList.fsize vs + 1 ≤ fuel := by rw [lfsize_cons] at hf; omega
    have hv := parseVal_chars v fuel (JsonList.chars vs ++ ']' :: rest) hb1
      (numDelim_lchars vs rest)
    have hl := parseListRest_chars vs fuel rest hb2
    rw [lchars_cons, List.cons_append, parseListRest_succ, skipWs_cons _ _ (by decide)]
    simp only [List.append_assoc]
    simp [hv, hl]

/-- Parsing a printed `"key": value` pair recovers it. -/
theorem parseKV_chars : ∀ (k : String) (v : Json) (fuel : Nat) (rest : List Char),
    Json.fsize v + 1 ≤ fuel → numDelim rest →
    parseKV fuel (keyChars k ++ (Json.chars v ++ rest)) = some (k, v, rest)
  | _, _, 0, _, hf, _ => absurd hf (by omega)
  | k, v, fuel + 1, rest, hf, hr => by
    have hb : Json.fsize v ≤ fuel := by omega
    have hv := parseVal_chars v fuel rest hb hr
    simp only [keyChars, List.cons_append, List.append_assoc, List.singleton_append,
      List.nil_append]
    rw [parseKV_succ, skipWs_cons _ _ (by decide)]
    have hsb := parseStrBody_escChars k.data
      ((escChars k.data).length + ((Json.chars v).length + rest.length + 1 + 1) + 1)
      (':' :: (Json.chars v ++ rest))
      (by have := escChars_length k.data; omega)
    have hsk : skipWs (':' :: (Json.chars v ++ rest)) = ':' :: (Json.chars v ++ rest) :=
      skipWs_cons _ _ (by decide)
    simp [hsb, hsk, hv, mk_data]

/-- Parsing the printed trailing fields recovers them. -/
theorem parseObjRest_chars : ∀ (kvs : JsonObj) (fuel : Nat) (rest : List Char),
    JsonObj.fsize kvs + 1 ≤ fuel →
    parseObjRest fuel (JsonObj.chars kvs ++ '\x7d' :: rest) = some (kvs, rest)
  | _, 0, _, hf => absurd hf (by omega)
  | .nil, fuel + 1, rest, _ => by
    rw [ochars_nil, List.nil_append, parseObjRest_succ, skipWs_cons _ _ (by decide)]
    simp
  | .cons k v kvs, fuel + 1, rest, hf => by
    have hb1 : Json.fsize v + 1 ≤ fuel := by rw [ofsize_cons] at hf; omega
    have hb2 : JsonObj.fsize kvs + 1 ≤ fuel := by rw [ofsize_cons] at hf; omega
    have hkv := parseKV_chars k v fuel (JsonObj.chars kvs ++ '\x7d' :: rest) hb1
      (numDelim_ochars kvs rest)
    have ho := parseObjRest_chars kvs fuel rest hb2
    rw [ochars_cons, List.cons_append, parseObjRest_succ, skipWs_cons _ _ (by decide)]
    simp only [List.append_assoc] at hkv ⊢
    simp [hkv, ho]
end

mutual
/-- The parser fuel bound is covered by twice the printed length. -/
theorem fsize_le_chars : ∀ v : Json, Json.fsize v ≤ 2 * (Json.chars v).length
  | .null => by rw [fsize_null, chars_null]; simp
  | .bool true => by rw [fsize_bool, chars_true]; simp
  | .bool false => by rw [fsize_bool, chars_false]; simp
  | .num i => by
    rw [fsize_num, chars_num]
    unfold intChars
    have h0 : natChars i.natAbs ≠ [] := natChars_ne_nil _
    have h1 : natChars i.toNat ≠ [] := natChars_ne_nil _
    split
    · simp only [List.length_cons]; omega
    · have : 0 < (natChars i.toNat).length := List.length_pos.mpr h1
      omega
  | .str s => by rw [fsize_str, chars_str]; simp; omega
  | .arr .nil => by rw [fsize_arr, lfsize_nil, chars_arr_nil]; simp
  | .arr (.cons v vs) => by
    have ihv := fsize_le_chars v
    have ihl := lfsize_le_chars vs
    rw [fsize_arr, lfsize_cons, chars_arr_cons]
    simp only [List.length_cons, List.length_append, List.length_singleton]
    omega
  | .obj .nil => by rw [fsize_obj, ofsize_nil, chars_obj_nil]; simp
  | .obj (.cons k v kvs) => by
    have ihv := fsize_le_chars v
    have iho := ofsize_le_chars kvs
    rw [fsize_obj, ofsize_cons, chars_obj_cons]
    simp only [List.length_cons, List.length_append, List.length_singleton]
    omega

theorem lfsize_le_chars : ∀ vs : JsonList, JsonList.fsize vs ≤ 2 * (JsonList.chars vs).length
  | .nil => by rw [lfsize_nil, lchars_nil]; simp
  | .cons v vs => by
    have ihv := fsize_le_chars v
    have ihl := lfsize_le_chars vs
    rw [lfsize_cons, lchars_cons]
    simp only [List.length_cons, List.length_append]
    omega

theorem ofsize_le_chars : ∀ kvs : JsonObj, JsonObj.fsize kvs ≤ 2 * (JsonObj.chars kvs).length
  | .nil => by rw [ofsize_nil, ochars_nil]; simp
  | .cons k v kvs => by
    have ihv := fsize_le_chars v
    have iho := ofsize_le_chars kvs
    rw [ofsize_cons, ochars_cons]
    simp only [List.length_cons, List.length_append]
    omega
end

/-- Full JSON round trip: parsing a stringified value recovers the value. -/
theorem parseJson_stringify (v : Json) : parseJson (Json.stringify v) = some v := by
  have hp := parseVal_chars v (2 * (Json.chars v).length + 1) []
    (by have := fsize_le_chars v; omega) numDelim_nil
  rw [List.append_nil] at hp
  show (match parseVal (2 * (Json.chars v).length + 1) (Json.chars v) with
    | none => none
    | some (v, rest) => if skipWs rest = [] then some v else none) = some v
  rw [hp]
  simp [skipWs]

namespace StreamService

/-- `processStreamEvent` only reads the counter and appends the frame's
effect: every other state component is untouched. -/
theorem processStreamEvent_eq (st : SessionState) (eventData : String) :
    processStreamEvent st eventData =
      match frameEffect st.sequence eventData with
      | none => st
      | some (pOpt, b) =>
        { st with
          sequence := st.sequence + 1
          actions := st.actions ++
            (match pOpt with | some r => [SessionAction.persist r] | none => []) ++
            [SessionAction.broadcast b] } := by
  unfold processStreamEvent frameEffect
  cases h1 : IRAService.parseSSEData eventData with
  | none => rfl
  | some parsed =>
    dsimp only
    cases h2 : IRAService.processStreamEvent parsed with
    | none => rfl
    | some resultData =>
      dsimp only
      by_cases h3 : resultData.type ≠ "METADATA"
      · rw [if_pos h3, if_pos h3]
      · rw [if_neg h3, if_neg h3]

/-- What `frameEffect` produces when it produces anything: the result
broadcast carries the next counter value as sequence and id, and the
persisted row (when present) carries that same sequence. -/
theorem frameEffect_spec (seq : Nat) (eventData : String)
    (pOpt : Option SearchResultRecord) (b : BroadcastRec)
    (h : frameEffect seq eventData = some (pOpt, b)) :
    b.eventType = "result" ∧ b.payloadSequence = some (seq + 1) ∧
      b.eventId = some (natToString (seq + 1)) ∧
      (∀ r, pOpt = some r → r.sequence = seq + 1) ∧
      (b.payloadType = some "METADATA" → pOpt = none) ∧
      (b.payloadType ≠ some "METADATA" → ∃ r, pOpt = some r) := by
  unfold frameEffect at h
  cases h1 : IRAService.parseSSEData eventData with
  | none => rw [h1] at h; exact absurd h (by simp)
  | some parsed =>
    rw [h1] at h
    dsimp only at h
    cases h2 : IRAService.processStreamEvent parsed with
    | none => rw [h2] at h; exact absurd h (by simp)
    | some resultData =>
      rw [h2] at h
      dsimp only at h
      simp only [Option.some.injEq, Prod.mk.injEq] at h
      obtain ⟨hp, hb⟩ := h
      subst hb
      by_cases h3 : resultData.type = "METADATA"
      · rw [if_neg (by simpa using h3)] at hp
        refine ⟨rfl, rfl, rfl, ?_, ?_, ?_⟩
        · intro r hr; rw [← hp] at hr; exact absurd hr (by simp)
        · intro _; exact hp.symm
        · intro hne; exact absurd (by simpa using h3) hne
      · rw [if_pos (by simpa using h3)] at hp
        refine ⟨rfl, rfl, rfl, ?_, ?_, ?_⟩
        · intro r hr
          rw [← hp] at hr
          simp only [Option.some.injEq] at hr
          rw [← hr]
        · intro hmeta
          simp only [Option.some.injEq] at hmeta
          exact absurd hmeta h3
        · intro _; exact ⟨_, hp.symm⟩

theorem persistedOf_append (a b : List SessionAction) :
    persistedOf (a ++ b) = persistedOf a ++ persistedOf b := by
  unfold persistedOf
  exact List.filterMap_append a b _

theorem broadcastsOf_append (a b : List SessionAction) :
    broadcastsOf (a ++ b) = broadcastsOf a ++ broadcastsOf b := by
  unfold broadcastsOf
  exact List.filterMap_append a b _

theorem resultBroadcasts_append (a b : List SessionAction) :
    resultBroadcasts (a ++ b) = resultBroadcasts a ++ resultBroadcasts b := by
  unfold resultBroadcasts
  rw [broadcastsOf_append, List.filter_append]

theorem getLast?_mem_of {α : Type} : ∀ (l : List α) (a : α), l.getLast? = some a → a ∈ l := by
  intro l
  induction l with
  | nil => intro a h; exact absurd h (by simp)
  | cons c cs ih =>
    intro a h
    cases cs with
    | nil => simp at h; simp [h]
    | cons d ds =>
      rw [List.getLast?_cons_cons] at h
      exact List.mem_cons_of_mem c (ih a h)

/-- One consumption step preserves the invariant. -/
theorem seqInv_step (st : SessionState) (eventData : String) (h : SeqInv st) :
    SeqInv (processStreamEvent st eventData) := by
  rw [processStreamEvent_eq]
  cases he : frameEffect st.sequence eventData with
  | none => exact h
  | some pb =>
    obtain ⟨pOpt, b⟩ := pb
    obtain ⟨hbt, hbseq, hbid, hpseq, hm1, hm2⟩ :=
      frameEffect_spec st.sequence eventData pOpt b he
    obtain ⟨h1, h2, h3⟩ := h
    have hlastP : persistedOf [SessionAction.broadcast b] = [] := rfl
    have hlastR : resultBroadcasts [SessionAction.broadcast b] = [b] := by
      unfold resultBroadcasts broadcastsOf
      simp [hbt]
    dsimp only
    cases pOpt with
    | none =>
      dsimp only
      refine ⟨?_, ?_, ?_⟩
      · show ((resultBroadcasts (st.actions ++ [] ++ [SessionAction.broadcast b])).map
          (fun b => b.payloadSequence)) = _
        rw [resultBroadcasts_append, resultBroadcasts_append, hlastR]
        rw [show resultBroadcasts ([] : List SessionAction) = [] from rfl]
        rw [List.append_nil, List.map_append, h1, List.range_succ, List.map_append]
        simp [hbseq]
      · show List.Chain' _ ((persistedOf (st.actions ++ [] ++ [SessionAction.broadcast b])).map
          (fun r => r.sequence))
        rw [persistedOf_append, persistedOf_append, hlastP]
        rw [show persistedOf ([] : List SessionAction) = [] from rfl]
        simpa using h2
      · intro q hq
        rw [show persistedOf (st.actions ++ [] ++ [SessionAction.broadcast b])
            = persistedOf st.actions from by
          rw [persistedOf_append, persistedOf_append, hlastP]
          rw [show persistedOf ([] : List SessionAction) = [] from rfl]
          simp] at hq
        have := h3 q hq
        exact ⟨this.1, by dsimp only; omega⟩
    | some r =>
      have hrseq : r.sequence = st.sequence + 1 := hpseq r rfl
      have hmidP : persistedOf [SessionAction.persist r] = [r] := rfl
      have hmidR : resultBroadcasts [SessionAction.persist r] = [] := rfl
      dsimp only
      refine ⟨?_, ?_, ?_⟩
      · show ((resultBroadcasts (st.actions ++ [SessionAction.persist r]
            ++ [SessionAction.broadcast b])).map (fun b => b.payloadSequence)) = _
        rw [resultBroadcasts_append, resultBroadcasts_append, hlastR, hmidR]
        rw [List.append_nil, List.map_append, h1, List.range_succ, List.map_append]
        simp [hbseq]
      · show List.Chain' _ ((persistedOf (st.actions ++ [SessionAction.persist r]
            ++ [SessionAction.broadcast b])).map (fun r => r.sequence))
        rw [persistedOf_append, persistedOf_append, hlastP, hmidP, List.append_nil,
          List.map_append]
        rw [List.chain'_append]
        refine ⟨h2, by simp, ?_⟩
        intro x hx y hy
        simp only [List.map_cons, List.map_nil, List.head?_cons, Option.mem_def,
          Option.some.injEq] at hy
        subst hy
        have hxmem : x ∈ (persistedOf st.actions).map (fun r => r.sequence) :=
          getLast?_mem_of _ x (by simpa using hx)
        have := (h3 x hxmem).2
        rw [hrseq]
        omega
      · intro q hq
        rw [show persistedOf (st.actions ++ [SessionAction.persist r]
            ++ [SessionAction.broadcast b]) = persistedOf st.actions ++ [r] from by
          rw [persistedOf_append, persistedOf_append, hlastP, hmidP, List.append_nil]] at hq
        rw [List.map_append] at hq
        rcases List.mem_append.mp hq with hq | hq
        · have := h3 q hq
          exact ⟨this.1, by dsimp only; omega⟩
        · simp at hq
          subst hq
          rw [hrseq]
          exact ⟨by omega, by dsimp only; omega⟩

/-- The invariant holds after any run of the loop from a fresh session. -/
theorem seqInv_runFrames (frames : List String) : SeqInv (runFrames frames) := by
  unfold runFrames
  have h0 : SeqInv initialSession := by
    refine ⟨rfl, ?_, ?_⟩
    · exact List.chain'_nil
    · intro q hq; exact absurd hq (by simp [persistedOf, initialSession, startupBroadcasts,
        startupBroadcast1, startupBroadcast2])
  generalize initialSession = st at h0 ⊢
  induction frames generalizing st with
  | nil => exact h0
  | cons f fs ih => exact ih _ (seqInv_step st f h0)

theorem persistedOf_broadcast_single (b : BroadcastRec) :
    persistedOf [SessionAction.broadcast b] = [] := rfl

theorem resultBroadcasts_nonresult (b : BroadcastRec) (h : ¬b.eventType = "result") :
    resultBroadcasts [SessionAction.broadcast b] = [] := by
  unfold resultBroadcasts broadcastsOf
  simp [h]

theorem completeSearch_resultBroadcasts (st : SessionState) :
    resultBroadcasts (completeSearch st).actions = resultBroadcasts st.actions := by
  unfold completeSearch
  dsimp only
  rw [resultBroadcasts_append, resultBroadcasts_nonresult _ (by simp)]
  simp

theorem completeSearch_persisted (st : SessionState) :
    persistedOf (completeSearch st).actions = persistedOf st.actions := by
  unfold completeSearch
  dsimp only
  rw [persistedOf_append, persistedOf_broadcast_single]
  simp

end StreamService

/-- C1, counterexample.  The claim asserts that persisted sequences form
`1, 2, …, n` with no gaps and that the terminal COMPLETED status records
`totalResults` equal to the number of persisted events, predicting sequences
1 and 2 and `totalResults = 2` for the metadata/message/final-result
delivery.  On the code, the sequence counter is also incremented for the
broadcast-only METADATA event, so the two persisted events carry sequences 2
and 3 (a gap at 1) and the COMPLETED status records `totalResults = 3`. -/
theorem c1_counterexample :
    ((StreamService.persistedOf StreamService.scenarioA.session.actions).map
        (fun r => r.sequence) = [2, 3] ∧
      StreamService.scenarioA.session.totalResults = some 3 ∧
      StreamService.scenarioA.session.status = "COMPLETED") ∧
    ¬((StreamService.persistedOf StreamService.scenarioA.session.actions).map
        (fun r => r.sequence) = [1, 2] ∧
      StreamService.scenarioA.session.totalResults = some 2) := by
  decide

/-- C1, amended.  For every session, the sequence numbers of the result
broadcasts (persisted events and broadcast-only METADATA events together)
form exactly `1, 2, …, n` where `n` is the final sequence counter; the
persisted (non-METADATA) events carry strictly increasing sequences drawn
from that range — with gaps where METADATA events consumed a sequence
number — and the terminal COMPLETED status records `totalResults = n`, the
total number of sequenced events, not the number of persisted ones.  In the
scenario delivery the two persisted events carry sequences 2 and 3 and the
final status records `totalResults = 3`. -/
theorem c1_sequences :
    (∀ frames : List String,
      ((StreamService.resultBroadcasts
          (StreamService.completeSearch (StreamService.runFrames frames)).actions).map
            (fun b => b.payloadSequence)
        = (List.range (StreamService.runFrames frames).sequence).map (fun i => some (i + 1))) ∧
      List.Chain' (fun a b => a < b)
        ((StreamService.persistedOf
          (StreamService.completeSearch (StreamService.runFrames frames)).actions).map
            (fun r => r.sequence)) ∧
      (∀ q ∈ (StreamService.persistedOf
          (StreamService.completeSearch (StreamService.runFrames frames)).actions).map
            (fun r => r.sequence),
        1 ≤ q ∧ q ≤ (StreamService.runFrames frames).sequence) ∧
      (StreamService.completeSearch (StreamService.runFrames frames)).totalResults
        = some ((StreamService.runFrames frames).sequence) ∧
      (StreamService.runFrames frames).sequence
        = (StreamService.resultBroadcasts
            (StreamService.completeSearch (StreamService.runFrames frames)).actions).length) ∧
    ((StreamService.persistedOf StreamService.scenarioA.session.actions).map
        (fun r => r.sequence) = [2, 3] ∧
      StreamService.scenarioA.session.totalResults = some 3) := by
  constructor
  · intro frames
    obtain ⟨h1, h2, h3⟩ := StreamService.seqInv_runFrames frames
    rw [StreamService.completeSearch_resultBroadcasts, StreamService.completeSearch_persisted]
    refine ⟨h1, h2, h3, ?_, ?_⟩
    · rfl
    · have := congrArg List.length h1
      simp only [List.length_map, List.length_range] at this
      omega
  · decide

/-- C1, amended, witness: a single `final_result` frame yields one persisted
event with sequence 1 and a COMPLETED status recording `totalResults = 1`. -/
theorem c1_sequences_witness :
    (StreamService.completeSearch (StreamService.runFrames
      ["event: values\ndata: \x7b\"final_result\":\"x\"\x7d"])).totalResults = some 1 := by
  have h := (c1_sequences.1
    ["event: values\ndata: \x7b\"final_result\":\"x\"\x7d"]).2.2.2.1
  rw [h]
  decide

/-- C2, counterexample.  The claim asserts that a session whose upstream
thread creation fails never takes status PROCESSING.  In the code,
`startStreamSearch` writes status PROCESSING (and broadcasts it) before the
`createThread` call, so on thread-creation failure the status writes are
INITIATED, PROCESSING, FAILED. -/
theorem c2_counterexample :
    (StreamService.performStreamingSearch false true
        "IRA threads API failed: 500 Internal Server Error" true).statusWrites
      = ["INITIATED", "PROCESSING", "FAILED"] ∧
    "PROCESSING" ∈ (StreamService.performStreamingSearch false true
        "IRA threads API failed: 500 Internal Server Error" true).statusWrites := by
  decide

/-- C2, amended.  A session whose upstream thread creation fails transitions
INITIATED → PROCESSING → FAILED (PROCESSING is written before the upstream
call); the consumption loop never starts for it, and no StreamEvent is
sequenced, persisted, or broadcast (its only broadcasts are the initial
status event and the error event). -/
theorem c2_thread_failure (streamOk : Bool) (errMsg : String) (iraErr : Bool) :
    (StreamService.performStreamingSearch false streamOk errMsg iraErr).statusWrites
      = ["INITIATED", "PROCESSING", "FAILED"] ∧
    (StreamService.performStreamingSearch false streamOk errMsg iraErr).started = false ∧
    StreamService.persistedOf
      (StreamService.performStreamingSearch false streamOk errMsg iraErr).actions = [] ∧
    StreamService.resultBroadcasts
      (StreamService.performStreamingSearch false streamOk errMsg iraErr).actions = [] := by
  exact ⟨rfl, rfl, rfl, rfl⟩

/-- C2, amended, witness at a concrete error message. -/
theorem c2_thread_failure_witness :
    (StreamService.performStreamingSearch false true "boom" false).statusWrites
      = ["INITIATED", "PROCESSING", "FAILED"] :=
  (c2_thread_failure true "boom" false).1

/-- C3, counterexample.  The claim asserts that immediately after each
emission step the sequence counter equals the sequence of the most recently
persisted event.  After the very first emission step on a METADATA frame the
counter is 1 while nothing has been persisted at all, so the two differ. -/
theorem c3_counterexample :
    (StreamService.processStreamEvent StreamService.initialSession metadataFrameA).sequence = 1 ∧
    StreamService.persistedOf
      (StreamService.processStreamEvent StreamService.initialSession metadataFrameA).actions = [] ∧
    ((StreamService.persistedOf
        (StreamService.processStreamEvent StreamService.initialSession metadataFrameA).actions).getLast?).map
        (fun r => r.sequence)
      ≠ some ((StreamService.processStreamEvent StreamService.initialSession
          metadataFrameA).sequence) := by
  decide

/-- C3, amended.  Each emission step either leaves the state untouched or
increments the counter by one and appends, in order, the persisted row
followed by its result broadcast (for non-METADATA events) or just the
broadcast (for METADATA).  Hence no event is broadcast before it has been
persisted, and immediately after a non-METADATA emission step the counter
equals the sequence of the most recently persisted event; after a METADATA
step the persisted rows are unchanged and the counter exceeds the last
persisted sequence. -/
theorem c3_emission_invariant (st : StreamService.SessionState) (ed : String) :
    StreamService.processStreamEvent st ed = st ∨
    ((StreamService.processStreamEvent st ed).sequence = st.sequence + 1 ∧
      ∃ b : StreamService.BroadcastRec,
        b.eventType = "result" ∧
        b.payloadSequence = some (st.sequence + 1) ∧
        ((∃ r : StreamService.SearchResultRecord,
            r.sequence = st.sequence + 1 ∧
            (StreamService.processStreamEvent st ed).actions
              = st.actions ++ [StreamService.SessionAction.persist r,
                  StreamService.SessionAction.broadcast b] ∧
            ((StreamService.persistedOf
                (StreamService.processStreamEvent st ed).actions).getLast?).map
                (fun r => r.sequence) = some (st.sequence + 1)) ∨
          (b.payloadType = some "METADATA" ∧
            (StreamService.processStreamEvent st ed).actions
              = st.actions ++ [StreamService.SessionAction.broadcast b] ∧
            StreamService.persistedOf (StreamService.processStreamEvent st ed).actions
              = StreamService.persistedOf st.actions))) := by
  rw [StreamService.processStreamEvent_eq]
  cases he : StreamService.frameEffect st.sequence ed with
  | none => exact Or.inl rfl
  | some pb =>
    obtain ⟨pOpt, b⟩ := pb
    obtain ⟨hbt, hbseq, hbid, hpseq, hm1, hm2⟩ :=
      StreamService.frameEffect_spec st.sequence ed pOpt b he
    right
    dsimp only
    cases pOpt with
    | some r =>
      refine ⟨rfl, b, hbt, hbseq, Or.inl ⟨r, hpseq r rfl, by simp, ?_⟩⟩
      have : StreamService.persistedOf
          ((st.actions ++ [StreamService.SessionAction.persist r]) ++
            [StreamService.SessionAction.broadcast b])
          = StreamService.persistedOf st.actions ++ [r] := by
        rw [StreamService.persistedOf_append, StreamService.persistedOf_append,
          show StreamService.persistedOf [StreamService.SessionAction.persist r] = [r] from rfl,
          StreamService.persistedOf_broadcast_single]
        simp
      dsimp only
      rw [show st.actions ++ [StreamService.SessionAction.persist r]
          ++ [StreamService.SessionAction.broadcast b]
          = (st.actions ++ [StreamService.SessionAction.persist r])
            ++ [StreamService.SessionAction.broadcast b] from rfl, this,
        List.getLast?_concat]
      simp [hpseq r rfl]
    | none =>
      have hmeta : b.payloadType = some "METADATA" := by
        by_contra hne
        obtain ⟨r, hr⟩ := hm2 hne
        exact Option.noConfusion hr
      refine ⟨rfl, b, hbt, hbseq, Or.inr ⟨hmeta, by simp, ?_⟩⟩
      dsimp only
      rw [show st.actions ++ [] ++ [StreamService.SessionAction.broadcast b]
          = st.actions ++ [StreamService.SessionAction.broadcast b] from by simp]
      rw [StreamService.persistedOf_append]
      simp [StreamService.persistedOf_broadcast_single]

/-- C3, amended, witness: the step on the scenario metadata frame takes the
METADATA branch of the invariant. -/
theorem c3_emission_invariant_witness :
    ¬StreamService.processStreamEvent StreamService.initialSession metadataFrameA
        = StreamService.initialSession ∧
    (StreamService.processStreamEvent StreamService.initialSession metadataFrameA).sequence
      = StreamService.initialSession.sequence + 1 := by
  rcases c3_emission_invariant StreamService.initialSession metadataFrameA with h | h
  · exact absurd (congrArg (fun s => s.sequence) h) (by decide)
  · refine ⟨?_, h.1⟩
    intro heq
    exact absurd (congrArg (fun s => s.sequence) heq) (by decide)

namespace StreamService

/-- Counter and persisted rows after one step, as functions of the counter
alone. -/
theorem processStreamEvent_proj (st : SessionState) (ed : String) :
    (processStreamEvent st ed).sequence = st.sequence + seqEffect st.sequence ed ∧
    persistedOf (processStreamEvent st ed).actions
      = persistedOf st.actions ++ persistEffect st.sequence ed := by
  rw [processStreamEvent_eq]
  unfold seqEffect persistEffect
  cases he : frameEffect st.sequence ed with
  | none => simp
  | some pb =>
    obtain ⟨pOpt, b⟩ := pb
    dsimp only
    cases pOpt with
    | none =>
      refine ⟨rfl, ?_⟩
      rw [persistedOf_append, persistedOf_append, persistedOf_broadcast_single,
        show persistedOf ([] : List SessionAction) = [] from rfl]
      simp
    | some r =>
      refine ⟨rfl, ?_⟩
      rw [persistedOf_append, persistedOf_append, persistedOf_broadcast_single,
        show persistedOf [SessionAction.persist r] = [r] from rfl]
      simp

/-- The frame fold of the `data` handler: starting from two states with equal
counters, the counters agree afterwards and the same new rows are
persisted. -/
theorem onDataFold_proj : ∀ (parts : List (List Char)) (st1 st2 : SessionState),
    st1.sequence = st2.sequence →
    (parts.foldl (fun st ed => if trimChars ed = [] then st
        else processStreamEvent st (String.mk (trimChars ed))) st1).sequence
      = (parts.foldl (fun st ed => if trimChars ed = [] then st
        else processStreamEvent st (String.mk (trimChars ed))) st2).sequence ∧
    ∃ d, persistedOf (parts.foldl (fun st ed => if trimChars ed = [] then st
        else processStreamEvent st (String.mk (trimChars ed))) st1).actions
        = persistedOf st1.actions ++ d ∧
      persistedOf (parts.foldl (fun st ed => if trimChars ed = [] then st
        else processStreamEvent st (String.mk (trimChars ed))) st2).actions
        = persistedOf st2.actions ++ d := by
  intro parts
  induction parts with
  | nil =>
    intro st1 st2 h
    exact ⟨h, [], by simp, by simp⟩
  | cons p ps ih =>
    intro st1 st2 h
    simp only [List.foldl_cons]
    by_cases hp : trimChars p = []
    · rw [if_pos hp, if_pos hp]
      exact ih st1 st2 h
    · rw [if_neg hp, if_neg hp]
      have h1 := processStreamEvent_proj st1 (String.mk (trimChars p))
      have h2 := processStreamEvent_proj st2 (String.mk (trimChars p))
      have hseq : (processStreamEvent st1 (String.mk (trimChars p))).sequence
          = (processStreamEvent st2 (String.mk (trimChars p))).sequence := by
        rw [h1.1, h2.1, h]
      obtain ⟨hs, d, hd1, hd2⟩ := ih _ _ hseq
      refine ⟨hs, persistEffect st1.sequence (String.mk (trimChars p)) ++ d, ?_, ?_⟩
      · rw [hd1, h1.2, List.append_assoc]
      · rw [hd2, h2.2, ← h, List.append_assoc]

end StreamService

/-- C4, counterexample.  The claim asserts that after a terminal status —
including one reached via `stopStream` — no further sequence numbers are
issued and nothing further is persisted or broadcast.  In the code,
`stopStream` marks the session FAILED but does not detach the stream
handlers: a chunk arriving afterwards is still sequenced, persisted and
broadcast, and a subsequent stream end even overwrites the status to
COMPLETED. -/
theorem c4_counterexample :
    (StreamService.runStream [StreamService.StreamEv.stop]).session.status = "FAILED" ∧
    (StreamService.runStream [StreamService.StreamEv.stop]).session.errorMsg
      = some "Stream stopped by user" ∧
    StreamService.persistedOf
      (StreamService.runStream [StreamService.StreamEv.stop]).session.actions = [] ∧
    (StreamService.runStream [StreamService.StreamEv.stop]).session.sequence = 0 ∧
    (StreamService.runStream [StreamService.StreamEv.stop,
        StreamService.StreamEv.chunk lateChunk]).session.sequence = 1 ∧
    (StreamService.persistedOf (StreamService.runStream [StreamService.StreamEv.stop,
        StreamService.StreamEv.chunk lateChunk]).session.actions).length = 1 ∧
    (StreamService.runStream [StreamService.StreamEv.stop,
        StreamService.StreamEv.chunk lateChunk,
        StreamService.StreamEv.endEv]).session.status = "COMPLETED" := by
  decide

/-- C4, amended.  While the session is active, `stop` is treated identically
to a stream error with the fixed message "Stream stopped by user"; once the
`activeStreams` entry is gone, `stop` is a no-op.  But terminal statuses do
not stop the consumption loop: a chunk processed after a stop advances the
counter and persists exactly the same rows as it would have without the
stop, and a stream end always overwrites the status to COMPLETED. -/
theorem c4_stop_not_final :
    (∀ ss : StreamService.StreamState, ss.session.active = true →
      StreamService.step ss StreamService.StreamEv.stop
        = StreamService.step ss (StreamService.StreamEv.errorEv "Stream stopped by user")) ∧
    (∀ ss : StreamService.StreamState, ss.session.active = false →
      StreamService.step ss StreamService.StreamEv.stop = ss) ∧
    (∀ (ss : StreamService.StreamState) (c : String),
      (StreamService.step (StreamService.step ss StreamService.StreamEv.stop)
          (StreamService.StreamEv.chunk c)).session.sequence
        = (StreamService.step ss (StreamService.StreamEv.chunk c)).session.sequence ∧
      ∃ d, StreamService.persistedOf
          (StreamService.step (StreamService.step ss StreamService.StreamEv.stop)
            (StreamService.StreamEv.chunk c)).session.actions
          = StreamService.persistedOf
              (StreamService.step ss StreamService.StreamEv.stop).session.actions ++ d ∧
        StreamService.persistedOf
          (StreamService.step ss (StreamService.StreamEv.chunk c)).session.actions
          = StreamService.persistedOf ss.session.actions ++ d) ∧
    (∀ ss : StreamService.StreamState,
      (StreamService.step ss StreamService.StreamEv.endEv).session.status = "COMPLETED") := by
  refine ⟨?_, ?_, ?_, ?_⟩
  · intro ss h
    show { ss with session := StreamService.stopStream ss.session }
      = { ss with session := StreamService.failSearch "Stream stopped by user" ss.session }
    rw [StreamService.stopStream, if_pos h]
  · intro ss h
    show { ss with session := StreamService.stopStream ss.session } = ss
    rw [StreamService.stopStream, if_neg (by simp [h])]
  · intro ss c
    have hstep : StreamService.step ss StreamService.StreamEv.stop
        = { ss with session := StreamService.stopStream ss.session } := rfl
    have hseq : (StreamService.stopStream ss.session).sequence = ss.session.sequence := by
      unfold StreamService.stopStream StreamService.failSearch
      split
      · rfl
      · rfl
    rw [hstep]
    show (StreamService.onData { ss with session := StreamService.stopStream ss.session }
          c).session.sequence
        = (StreamService.onData ss c).session.sequence ∧
      ∃ d, StreamService.persistedOf
          (StreamService.onData { ss with session := StreamService.stopStream ss.session }
            c).session.actions
          = StreamService.persistedOf (StreamService.stopStream ss.session).actions ++ d ∧
        StreamService.persistedOf (StreamService.onData ss c).session.actions
          = StreamService.persistedOf ss.session.actions ++ d
    unfold StreamService.onData
    dsimp only
    obtain ⟨hs, d, hd1, hd2⟩ := StreamService.onDataFold_proj
      (StreamService.splitBlank (ss.buffer ++ c.data)).dropLast
      (StreamService.stopStream ss.session) ss.session hseq
    exact ⟨hs, d, hd1, hd2⟩
  · intro ss
    show (StreamService.completeSearch _).status = "COMPLETED"
    rfl

/-- C4, amended, witness at a concrete stopped session. -/
theorem c4_stop_not_final_witness :
    StreamService.step StreamService.initialStream StreamService.StreamEv.stop
      = StreamService.step StreamService.initialStream
          (StreamService.StreamEv.errorEv "Stream stopped by user") :=
  c4_stop_not_final.1 StreamService.initialStream rfl

/-- C7, counterexample.  The claim asserts that every `messages` frame whose
decoded data is a non-empty list is classified (THINKING or INTERMEDIATE).
A frame whose last element carries empty textual content is decoded to a
non-empty list but classified to nothing: the code requires
`lastMessage.content` to be truthy. -/
theorem c7_counterexample :
    IRAService.parseSSEData "event: messages\ndata: [\x7b\"content\":\"\"\x7d]"
      = some { type := some "messages"
               data := some (.arr (.cons (.obj (.cons "content" (.str "") .nil)) .nil))
               id := none } ∧
    IRAService.processStreamEvent
      { type := some "messages"
        data := some (.arr (.cons (.obj (.cons "content" (.str "") .nil)) .nil))
        id := none } = none := by
  decide

/-- C7, amended.  For every `messages` frame whose decoded data is a
non-empty list whose last element is truthy and carries truthy textual
content, classification takes that last element and yields THINKING when it
carries a non-empty tool-call list, otherwise INTERMEDIATE; the payload is
the element's content, and the side metadata carries the element's message
role (`type`) and its tool-call list (empty when absent).  A last element
with falsy content yields nothing. -/
theorem c7_messages_classification (vs : JsonList) (m c : Json) (id : Option String)
    (h1 : vs.getLast = some m) (h2 : m.truthy = true)
    (h3 : jsGet (some m) "content" = some c) (h4 : c.truthy = true)
    (htc : jsGet (some m) "tool_calls" = none ∨
      ∃ ts : JsonList, jsGet (some m) "tool_calls" = some (.arr ts)) :
    IRAService.processStreamEvent
        { type := some "messages", data := some (.arr vs), id := id }
      = some { type := if jsLengthPos (jsGet (some m) "tool_calls") = true
                 then "THINKING" else "INTERMEDIATE"
               content := c
               sequence := parseIntJS id
               metadata := some { messageType := jsGet (some m) "type"
                                  toolCalls :=
                                    (jsGet (some m) "tool_calls").getD (.arr .nil) } } := by
  unfold IRAService.processStreamEvent
  dsimp only
  rw [show (Json.arr vs).truthy = true from rfl]
  simp only [reduceIte]
  rw [h1, h3]
  have hcond : (jsTruthy (some m) && jsTruthy (some c)) = true := by
    simp [jsTruthy, h2, h4]
  rw [if_pos hcond]
  rcases htc with htc | ⟨ts, htc⟩
  · rw [htc]
    simp [jsTruthy, jsLengthPos]
  · rw [htc]
    simp only [jsTruthy, Json.truthy, Bool.true_and, Option.getD_some]
    rfl

/-- C7, amended, witness: a last element with content and one tool call is
classified THINKING with its metadata carried through. -/
theorem c7_messages_classification_witness :
    IRAService.processStreamEvent
      { type := some "messages"
        data := some (.arr (.cons (.obj (.cons "content" (.str "hi")
          (.cons "tool_calls" (.arr (.cons (.str "t") .nil)) .nil))) .nil))
        id := none }
      = some { type := "THINKING", content := .str "hi", sequence := 0,
               metadata := some { messageType := none
                                  toolCalls := .arr (.cons (.str "t") .nil) } } := by
  rw [c7_messages_classification
    (.cons (.obj (.cons "content" (.str "hi")
      (.cons "tool_calls" (.arr (.cons (.str "t") .nil)) .nil))) .nil)
    (.obj (.cons "content" (.str "hi")
      (.cons "tool_calls" (.arr (.cons (.str "t") .nil)) .nil)))
    (.str "hi") none rfl rfl rfl rfl (Or.inr ⟨_, rfl⟩)]
  decide

theorem hasPref_true_cons {p : Char} {ps cs : List Char}
    (h : hasPref (p :: ps) cs = true) : ∃ cs', cs = p :: cs' ∧ hasPref ps cs' = true := by
  cases cs with
  | nil => simp [hasPref] at h
  | cons c cs' =>
    rw [hasPref_cons] at h
    rcases (Bool.and_eq_true _ _).mp h with ⟨h1, h2⟩
    exact ⟨cs', by rw [of_decide_eq_true h1], h2⟩

theorem hasPref_data_not_event {l : List Char} (h : hasPref "data:".data l = true) :
    hasPref "event:".data l = false := by
  obtain ⟨cs', hl, _⟩ := hasPref_true_cons (p := 'd') h
  subst hl
  exact hasPref_neq_head _ _ _ _ (by decide)

theorem processLine_data_set (ev : SSEEvent) (l : List Char)
    (h1 : hasPref "data:".data l = true) (h2 : trimChars (l.drop 5) ≠ []) :
    (IRAService.processLine ev l).data
      = some (jsValue (String.mk (trimChars (l.drop 5)))) := by
  unfold IRAService.processLine
  rw [hasPref_data_not_event h1, h1]
  simp only [Bool.false_eq_true, if_false, if_true]
  rw [if_neg h2]

theorem processLine_data_eq (ev : SSEEvent) (l : List Char)
    (h : hasPref "data:".data l = false ∨ trimChars (l.drop 5) = []) :
    (IRAService.processLine ev l).data = ev.data := by
  unfold IRAService.processLine
  by_cases he : hasPref "event:".data l = true
  · rw [if_pos he]
  · rw [if_neg he]
    by_cases hd : hasPref "data:".data l = true
    · rw [if_pos hd]
      rcases h with h | h
      · rw [hd] at h; exact absurd h (by decide)
      · rw [if_pos h]
    · rw [if_neg hd]
      by_cases hi : hasPref "id:".data l = true
      · rw [if_pos hi]
      · rw [if_neg hi]

theorem processLine_skip (ev : SSEEvent) (l : List Char)
    (h1 : hasPref "event:".data l = false) (h2 : hasPref "data:".data l = false)
    (h3 : hasPref "id:".data l = false) :
    IRAService.processLine ev l = ev := by
  unfold IRAService.processLine
  rw [if_neg (show ¬(hasPref "event:".data l = true) by simp [h1]),
    if_neg (show ¬(hasPref "data:".data l = true) by simp [h2]),
    if_neg (show ¬(hasPref "id:".data l = true) by simp [h3])]

theorem foldl_processLine_data (ls : List (List Char)) (ev : SSEEvent)
    (h : ∀ l ∈ ls, hasPref "data:".data l = false ∨ trimChars (l.drop 5) = []) :
    (ls.foldl IRAService.processLine ev).data = ev.data := by
  induction ls generalizing ev with
  | nil => rfl
  | cons l ls ih =>
    rw [List.foldl_cons, ih _ (fun x hx => h x (List.mem_cons_of_mem _ hx)),
      processLine_data_eq ev l (h l (List.mem_cons_self _ _))]

theorem foldl_processLine_skip (ls : List (List Char)) (ev : SSEEvent)
    (h : ∀ l ∈ ls, hasPref "event:".data l = false ∧ hasPref "data:".data l = false ∧
      hasPref "id:".data l = false) :
    ls.foldl IRAService.processLine ev = ev := by
  induction ls with
  | nil => rfl
  | cons l ls ih =>
    rw [List.foldl_cons, processLine_skip ev l (h l (List.mem_cons_self _ _)).1
      (h l (List.mem_cons_self _ _)).2.1 (h l (List.mem_cons_self _ _)).2.2]
    exact ih (fun x hx => h x (List.mem_cons_of_mem _ hx))

/-- C10, counterexample.  The claim asserts that when a frame contains
multiple `data:` lines, only the last data line is retained as the payload.
In the code a `data:` line whose trimmed content is empty is skipped
entirely, so in the frame `"data: hello\ndata:"` the earlier line's payload
survives — the last data line is not the one retained (on its own it would
yield nothing at all). -/
theorem c10_counterexample :
    IRAService.parseSSEData "data: hello\ndata:"
      = some { type := none, data := some (.str "hello"), id := none } ∧
    IRAService.parseSSEData "data:" = none := by
  decide

/-- C10, amended.  The parser is a total function of the input string (it
never throws).  A `data:` line is retained only when its trimmed content is
non-empty; among such lines the last one wins, so the payload of a frame is
the JSON decoding of the last non-empty `data:` line, with earlier ones
discarded and trailing empty `data:` lines ignored.  A frame none of whose
lines carries a recognized `event:`/`data:`/`id:` prefix yields nothing
(`null`).  A data value that is not valid JSON is kept as the raw string. -/
theorem c10_parse_sse (s u : String) (ev : SSEEvent)
    (pre post : List (List Char)) (l : List Char)
    (h1 : hasPref "data:".data l = true) (h2 : trimChars (l.drop 5) ≠ [])
    (h3 : ∀ l2 ∈ post, hasPref "data:".data l2 = false ∨ trimChars (l2.drop 5) = [])
    (hnp : ∀ l2 ∈ splitNL (trimChars s.data),
      hasPref "event:".data l2 = false ∧ hasPref "data:".data l2 = false ∧
      hasPref "id:".data l2 = false)
    (hjson : parseJson u = none) :
    ((pre ++ l :: post).foldl IRAService.processLine ev).data
        = some (jsValue (String.mk (trimChars (l.drop 5)))) ∧
    IRAService.parseSSEData s = none ∧
    jsValue u = .str u := by
  refine ⟨?_, ?_, ?_⟩
  · rw [List.foldl_append, List.foldl_cons, foldl_processLine_data post _ h3,
      processLine_data_set _ l h1 h2]
  · unfold IRAService.parseSSEData
    rw [foldl_processLine_skip _ _ hnp]
    rfl
  · unfold jsValue
    rw [hjson]
    rfl

/-- C10, amended, witness: a frame with a non-empty data line followed by an
empty one keeps the earlier payload; a prefix-free frame parses to nothing;
a non-JSON data value stays a raw string. -/
theorem c10_parse_sse_witness :
    (([] ++ "data: 42".data :: ["data:".data]).foldl
        IRAService.processLine {}).data
      = some (jsValue (String.mk (trimChars ("data: 42".data.drop 5)))) ∧
    IRAService.parseSSEData "hello world" = none ∧
    jsValue "hello" = .str "hello" :=
  c10_parse_sse "hello world" "hello" {} [] ["data:".data] "data: 42".data
    (by decide) (by decide) (by decide) (by decide) (by decide)

theorem mapGet_mapAdd (mp : List (String × List Nat)) (k : String) (id : Nat) :
    SSE.mapGet (SSE.mapAdd mp k id) k = some ((SSE.mapGet mp k).getD [] ++ [id]) := by
  induction mp with
  | nil => simp [SSE.mapAdd, SSE.mapGet]
  | cons p rest ih =>
    obtain ⟨k', v⟩ := p
    by_cases h : k' = k
    · subst h
      simp [SSE.mapAdd, SSE.mapGet]
    · simp [SSE.mapAdd, SSE.mapGet, h, ih]

theorem mapAdd_sizes (mp : List (String × List Nat)) (k : String) (id : Nat) :
    ((SSE.mapAdd mp k id).map (fun p => p.2.length)).sum
      = (mp.map (fun p => p.2.length)).sum + 1 := by
  induction mp with
  | nil => simp [SSE.mapAdd]
  | cons p rest ih =>
    obtain ⟨k', v⟩ := p
    by_cases h : k' = k
    · subst h
      simp [SSE.mapAdd]
      omega
    · simp [SSE.mapAdd, h, ih]
      omega

/-- C6.  An attach call made at (or above) the configured global ceiling fails
with the capacity error before touching any state, and the result carries no
manager at all — nothing is registered.  Below the ceiling, the connection is
appended to the heap, its id is registered under both the search and the user
key, the global count grows by exactly one, and the fresh connection has
already had the synthetic `connected` event written to its transport. -/
theorem c6_add_connection (m : SSE.Manager) (searchId userId : String) (failing : Bool) :
    (SSE.totalConnections m ≥ m.maxConnections →
      SSE.addConnection m searchId userId failing
        = .error "Maximum SSE connections exceeded") ∧
    (SSE.totalConnections m < m.maxConnections →
      ∃ mAfter : SSE.Manager,
        SSE.addConnection m searchId userId failing = .ok (mAfter, m.nextId) ∧
        SSE.newConn m.nextId searchId userId failing ∈ mAfter.store ∧
        SSE.mapGet mAfter.connections searchId
          = some ((SSE.mapGet m.connections searchId).getD [] ++ [m.nextId]) ∧
        SSE.mapGet mAfter.userConnections userId
          = some ((SSE.mapGet m.userConnections userId).getD [] ++ [m.nextId]) ∧
        SSE.totalConnections mAfter = SSE.totalConnections m + 1) ∧
    (SSE.newConn m.nextId searchId userId false).transport.written
      = [("connected", SSE.connectedPayload searchId, none)] := by
  refine ⟨?_, ?_, ?_⟩
  · intro h
    unfold SSE.addConnection
    rw [if_pos h]
  · intro h
    unfold SSE.addConnection
    rw [if_neg (by omega)]
    refine ⟨_, rfl, ?_, ?_, ?_, ?_⟩
    · exact List.mem_append_right _ (List.mem_singleton.mpr rfl)
    · exact mapGet_mapAdd m.connections searchId m.nextId
    · exact mapGet_mapAdd m.userConnections userId m.nextId
    · show ((SSE.mapAdd m.connections searchId m.nextId).map (fun p => p.2.length)).sum
        = SSE.totalConnections m + 1
      rw [mapAdd_sizes]
      rfl
  · rfl

/-- C6, witness: at a zero ceiling the attach is rejected; with a ceiling of
four on an empty manager the connection is registered with id 0. -/
theorem c6_add_connection_witness :
    SSE.addConnection
        { store := [], connections := [], userConnections := [],
          maxConnections := 0, nextId := 0 } "s1" "u1" false
      = .error "Maximum SSE connections exceeded" ∧
    ∃ mAfter : SSE.Manager,
      SSE.addConnection
          { store := [], connections := [], userConnections := [],
            maxConnections := 4, nextId := 0 } "s1" "u1" false
        = .ok (mAfter, 0) ∧
      SSE.newConn 0 "s1" "u1" false ∈ mAfter.store ∧
      SSE.mapGet mAfter.connections "s1"
        = some ((SSE.mapGet ({ store := [], connections := [], userConnections := [], maxConnections := 4, nextId := 0 } : SSE.Manager).connections "s1").getD [] ++ [0]) ∧
      SSE.mapGet mAfter.userConnections "u1"
        = some ((SSE.mapGet ({ store := [], connections := [], userConnections := [], maxConnections := 4, nextId := 0 } : SSE.Manager).userConnections "u1").getD [] ++ [0]) ∧
      SSE.totalConnections mAfter
        = SSE.totalConnections { store := [], connections := [], userConnections := [], maxConnections := 4, nextId := 0 } + 1 :=
  ⟨(c6_add_connection _ "s1" "u1" false).1 (by decide),
   (c6_add_connection _ "s1" "u1" false).2.1 (by decide)⟩

theorem close_idem (c : SSE.Conn) : SSE.close (SSE.close c) = SSE.close c := by
  obtain ⟨id, sid, uid, ⟨tf, tw, te⟩, conn, hb⟩ := c
  cases conn <;> cases tf <;> rfl

theorem close_id (c : SSE.Conn) : (SSE.close c).id = c.id := by
  obtain ⟨id, sid, uid, ⟨tf, tw, te⟩, conn, hb⟩ := c
  cases conn <;> cases tf <;> rfl

theorem close_searchId (c : SSE.Conn) : (SSE.close c).searchId = c.searchId := by
  obtain ⟨id, sid, uid, ⟨tf, tw, te⟩, conn, hb⟩ := c
  cases conn <;> cases tf <;> rfl

theorem close_userId (c : SSE.Conn) : (SSE.close c).userId = c.userId := by
  obtain ⟨id, sid, uid, ⟨tf, tw, te⟩, conn, hb⟩ := c
  cases conn <;> cases tf <;> rfl

theorem close_no_resend (c : SSE.Conn) (h : c.connected = false) :
    (SSE.close c).transport.written = c.transport.written ∧
    (SSE.close c).transport.ended = c.transport.ended := by
  obtain ⟨id, sid, uid, ⟨tf, tw, te⟩, conn, hb⟩ := c
  cases conn
  · exact ⟨rfl, rfl⟩
  · exact absurd h (by simp)

theorem storeGet_id (store : List SSE.Conn) (i : Nat) (c : SSE.Conn)
    (h : SSE.storeGet store i = some c) : c.id = i := by
  unfold SSE.storeGet at h
  have h2 := List.find?_some h
  simpa using h2

theorem storeGet_storeSet_self (store : List SSE.Conn) (i : Nat) (f : SSE.Conn → SSE.Conn)
    (c : SSE.Conn) (hc : SSE.storeGet store i = some c) (hf : (f c).id = c.id) :
    SSE.storeGet (SSE.storeSet store i f) i = some (f c) := by
  induction store with
  | nil => simp [SSE.storeGet] at hc
  | cons a rest ih =>
    by_cases ha : a.id = i
    · have hca : c = a := by
        unfold SSE.storeGet at hc
        rw [List.find?_cons_of_pos _ (by simp [ha])] at hc
        exact (Option.some.inj hc).symm
      subst hca
      unfold SSE.storeSet SSE.storeGet
      rw [List.map_cons]
      rw [if_pos ha, List.find?_cons_of_pos _ (by simp [hf, ha])]
    · have hc' : SSE.storeGet rest i = some c := by
        unfold SSE.storeGet at hc ⊢
        rwa [List.find?_cons_of_neg _ (by simp [ha])] at hc
      have ih' := ih hc'
      unfold SSE.storeSet SSE.storeGet at ih' ⊢
      rw [List.map_cons]
      rw [if_neg ha, List.find?_cons_of_neg _ (by simp [ha])]
      exact ih'

theorem storeSet_close_idem (store : List SSE.Conn) (i : Nat) :
    SSE.storeSet (SSE.storeSet store i SSE.close) i SSE.close
      = SSE.storeSet store i SSE.close := by
  unfold SSE.storeSet
  rw [List.map_map]
  apply List.map_congr_left
  intro a _
  show (if (if a.id = i then SSE.close a else a).id = i
      then SSE.close (if a.id = i then SSE.close a else a)
      else (if a.id = i then SSE.close a else a))
    = (if a.id = i then SSE.close a else a)
  by_cases ha : a.id = i
  · rw [if_pos ha, close_id, if_pos ha]
    exact close_idem a
  · rw [if_neg ha, if_neg ha]

theorem mapRemove_cons (k' : String) (v : List Nat) (rest : List (String × List Nat))
    (k : String) (id : Nat) :
    SSE.mapRemove ((k', v) :: rest) k id
      = if k' = k then (if v.erase id = [] then rest else (k', v.erase id) :: rest)
        else (k', v) :: SSE.mapRemove rest k id := rfl

theorem mapRemove_not_mem (mp : List (String × List Nat)) (k : String) (id : Nat)
    (h : ∀ p ∈ mp, p.1 ≠ k) : SSE.mapRemove mp k id = mp := by
  induction mp with
  | nil => rfl
  | cons p rest ih =>
    obtain ⟨k', v⟩ := p
    rw [mapRemove_cons, if_neg (h (k', v) (List.mem_cons_self _ _)),
      ih (fun q hq => h q (List.mem_cons_of_mem _ hq))]

theorem mapRemove_idem (mp : List (String × List Nat)) (k : String) (id : Nat)
    (h1 : (mp.map Prod.fst).Nodup) (h2 : ∀ p ∈ mp, p.2.Nodup) :
    SSE.mapRemove (SSE.mapRemove mp k id) k id = SSE.mapRemove mp k id := by
  induction mp with
  | nil => rfl
  | cons p rest ih =>
    obtain ⟨k', v⟩ := p
    rw [List.map_cons, List.nodup_cons] at h1
    by_cases hk : k' = k
    · subst hk
      rw [mapRemove_cons, if_pos rfl]
      by_cases he : v.erase id = []
      · rw [if_pos he]
        exact mapRemove_not_mem rest k' id (fun q hq hqk =>
          h1.1 (List.mem_map.mpr ⟨q, hq, hqk⟩))
      · rw [if_neg he, mapRemove_cons, if_pos rfl]
        have hid : id ∉ v.erase id := fun hm =>
          (((h2 (k', v) (List.mem_cons_self _ _)).mem_erase_iff).mp hm).1 rfl
        rw [List.erase_of_not_mem hid, if_neg he]
    · rw [mapRemove_cons, if_neg hk, mapRemove_cons, if_neg hk,
        ih h1.2 (fun q hq => h2 q (List.mem_cons_of_mem _ hq))]

/-- C9.  Under the registry well-formedness the manager maintains (distinct
keys in each registry and duplicate-free id sets), removing the same
connection a second time is a no-op: the manager is unchanged, because
`close` is idempotent and removing an id from the registries twice equals
removing it once.  Moreover closing an already-closed connection writes no
second `disconnect` event and does not end the transport again. -/
theorem c9_remove_idempotent (m : SSE.Manager) (cid : Nat)
    (h1 : (m.connections.map Prod.fst).Nodup)
    (h2 : ∀ p ∈ m.connections, p.2.Nodup)
    (h3 : (m.userConnections.map Prod.fst).Nodup)
    (h4 : ∀ p ∈ m.userConnections, p.2.Nodup) :
    SSE.removeConnection (SSE.removeConnection m cid) cid
      = SSE.removeConnection m cid ∧
    (∀ c : SSE.Conn, SSE.close (SSE.close c) = SSE.close c) ∧
    (∀ c : SSE.Conn, c.connected = false →
      (SSE.close c).transport.written = c.transport.written ∧
      (SSE.close c).transport.ended = c.transport.ended) := by
  refine ⟨?_, close_idem, close_no_resend⟩
  cases hg : SSE.storeGet m.store cid with
  | none =>
    have hm : SSE.removeConnection m cid = m := by
      unfold SSE.removeConnection
      rw [hg]
    rw [hm]
    exact hm
  | some c =>
    have hm1 : SSE.removeConnection m cid
        = { m with
            connections := SSE.mapRemove m.connections c.searchId cid
            userConnections := SSE.mapRemove m.userConnections c.userId cid
            store := SSE.storeSet m.store cid SSE.close } := by
      unfold SSE.removeConnection
      rw [hg]
    have hg2 : SSE.storeGet (SSE.storeSet m.store cid SSE.close) cid
        = some (SSE.close c) :=
      storeGet_storeSet_self m.store cid SSE.close c hg (close_id c)
    rw [hm1]
    unfold SSE.removeConnection
    dsimp only
    rw [hg2]
    dsimp only
    rw [close_searchId, close_userId,
      mapRemove_idem m.connections c.searchId cid h1 h2,
      mapRemove_idem m.userConnections c.userId cid h3 h4,
      storeSet_close_idem m.store cid]

/-- C9, witness: removing connection 0 twice from a one-connection manager
equals removing it once. -/
theorem c9_remove_idempotent_witness :
    SSE.removeConnection (SSE.removeConnection
        { store := [SSE.newConn 0 "s1" "u1" false],
          connections := [("s1", [0])], userConnections := [("u1", [0])],
          maxConnections := 10, nextId := 1 } 0) 0
      = SSE.removeConnection
        { store := [SSE.newConn 0 "s1" "u1" false],
          connections := [("s1", [0])], userConnections := [("u1", [0])],
          maxConnections := 10, nextId := 1 } 0 :=
  (c9_remove_idempotent _ 0 (by decide) (by decide) (by decide) (by decide)).1

theorem sendEvent_id (c : SSE.Conn) (t : String) (d : Json) (i : Option String) :
    (SSE.sendEvent c t d i).1.id = c.id := by
  obtain ⟨id, sid, uid, ⟨tf, tw, te⟩, conn, hb⟩ := c
  cases conn <;> cases tf <;> rfl

theorem sendEvent_snd (c : SSE.Conn) (t : String) (d : Json) (i : Option String) :
    (SSE.sendEvent c t d i).2 = (c.connected && !c.transport.failing) := by
  obtain ⟨id, sid, uid, ⟨tf, tw, te⟩, conn, hb⟩ := c
  cases conn <;> cases tf <;> rfl

theorem sendEvent_ok (c : SSE.Conn) (t : String) (d : Json) (i : Option String)
    (h1 : c.connected = true) (h2 : c.transport.failing = false) :
    SSE.sendEvent c t d i
      = ({ c with transport := { c.transport with
            written := c.transport.written ++ [(t, d, i)] } }, true) := by
  obtain ⟨id, sid, uid, ⟨tf, tw, te⟩, conn, hb⟩ := c
  subst h1
  subst h2
  rfl

theorem sendEvent_fail (c : SSE.Conn) (t : String) (d : Json) (i : Option String)
    (h1 : c.connected = true) (h2 : c.transport.failing = true) :
    SSE.sendEvent c t d i = ({ c with connected := false }, false) := by
  obtain ⟨id, sid, uid, ⟨tf, tw, te⟩, conn, hb⟩ := c
  subst h1
  subst h2
  rfl

theorem storeGet_storeSet_ne (store : List SSE.Conn) (i j : Nat) (f : SSE.Conn → SSE.Conn)
    (hf : ∀ c : SSE.Conn, c.id = i → (f c).id = i) (hij : j ≠ i) :
    SSE.storeGet (SSE.storeSet store i f) j = SSE.storeGet store j := by
  induction store with
  | nil => rfl
  | cons a rest ih =>
    unfold SSE.storeSet SSE.storeGet at ih ⊢
    rw [List.map_cons]
    by_cases ha : a.id = i
    · rw [if_pos ha]
      rw [List.find?_cons_of_neg _ (by simp [hf a ha]; omega),
        List.find?_cons_of_neg _ (by simp [ha]; omega)]
      exact ih
    · rw [if_neg ha]
      by_cases haj : a.id = j
      · rw [List.find?_cons_of_pos _ (by simp [haj]),
          List.find?_cons_of_pos _ (by simp [haj])]
      · rw [List.find?_cons_of_neg _ (by simp [haj]),
          List.find?_cons_of_neg _ (by simp [haj])]
        exact ih

theorem broadcastLoop_cons (t : String) (d : Json) (i : Option String) (cid : Nat)
    (ids : List Nat) (store : List SSE.Conn) (succ : Nat) (failed : List Nat) :
    SSE.broadcastLoop t d i (cid :: ids) (store, succ, failed)
      = match SSE.storeGet store cid with
        | none => SSE.broadcastLoop t d i ids (store, succ, failed)
        | some c =>
          SSE.broadcastLoop t d i ids
            (SSE.storeSet store cid (fun _ => (SSE.sendEvent c t d i).1),
             if (SSE.sendEvent c t d i).2 then succ + 1 else succ,
             if (SSE.sendEvent c t d i).2 then failed else failed ++ [cid]) := rfl

theorem broadcastLoop_spec (t : String) (d : Json) (i : Option String) :
    ∀ (ids : List Nat) (store : List SSE.Conn) (succ : Nat) (failed : List Nat),
      ids.Nodup →
      (SSE.broadcastLoop t d i ids (store, succ, failed)).2.1
        = succ + ids.countP (fun cid =>
            match SSE.storeGet store cid with
            | some c => c.connected && !c.transport.failing
            | none => false) ∧
      (SSE.broadcastLoop t d i ids (store, succ, failed)).2.2
        = failed ++ ids.filter (fun cid =>
            match SSE.storeGet store cid with
            | some c => !(c.connected && !c.transport.failing)
            | none => false) ∧
      (∀ j, j ∉ ids →
        SSE.storeGet (SSE.broadcastLoop t d i ids (store, succ, failed)).1 j
          = SSE.storeGet store j) ∧
      (∀ cid ∈ ids, ∀ c, SSE.storeGet store cid = some c →
        SSE.storeGet (SSE.broadcastLoop t d i ids (store, succ, failed)).1 cid
          = some ((SSE.sendEvent c t d i).1)) := by
  intro ids
  induction ids with
  | nil =>
    intro store succ failed hnd
    refine ⟨by simp [SSE.broadcastLoop], by simp [SSE.broadcastLoop], ?_, ?_⟩
    · intro j hj
      rfl
    · intro cid hcid
      simp at hcid
  | cons cid ids ih =>
    intro store succ failed hnd
    rw [List.nodup_cons] at hnd
    rw [broadcastLoop_cons]
    cases hg : SSE.storeGet store cid with
    | none =>
      obtain ⟨ihs, ihf, iho, ihm⟩ := ih store succ failed hnd.2
      refine ⟨?_, ?_, ?_, ?_⟩
      · rw [ihs, List.countP_cons]
        simp [hg]
      · rw [ihf, List.filter_cons]
        simp [hg]
      · intro j hj
        exact iho j (fun hm => hj (List.mem_cons_of_mem _ hm))
      · intro cid' hcid' c hc
        rcases List.mem_cons.mp hcid' with h | h
        · subst h
          rw [hg] at hc
          exact Option.noConfusion hc
        · exact ihm cid' h c hc
    | some c =>
      have hid : c.id = cid := storeGet_id store cid c hg
      have hfe : ∀ c' : SSE.Conn, c'.id = cid →
          ((fun _ => (SSE.sendEvent c t d i).1) c').id = cid := by
        intro c' _
        rw [sendEvent_id]
        exact hid
      have hpres : ∀ x ∈ ids,
          SSE.storeGet (SSE.storeSet store cid (fun _ => (SSE.sendEvent c t d i).1)) x
            = SSE.storeGet store x := by
        intro x hx
        exact storeGet_storeSet_ne store cid x _ hfe (fun h => hnd.1 (h ▸ hx))
      obtain ⟨ihs, ihf, iho, ihm⟩ :=
        ih (SSE.storeSet store cid (fun _ => (SSE.sendEvent c t d i).1))
          (if (SSE.sendEvent c t d i).2 then succ + 1 else succ)
          (if (SSE.sendEvent c t d i).2 then failed else failed ++ [cid]) hnd.2
      have hcongs : List.countP (fun cid' =>
            match SSE.storeGet (SSE.storeSet store cid
                (fun _ => (SSE.sendEvent c t d i).1)) cid' with
            | some c => c.connected && !c.transport.failing
            | none => false) ids
          = List.countP (fun cid' =>
            match SSE.storeGet store cid' with
            | some c => c.connected && !c.transport.failing
            | none => false) ids :=
        List.countP_congr (fun x hx => by rw [hpres x hx])
      have hcongf : List.filter (fun cid' =>
            match SSE.storeGet (SSE.storeSet store cid
                (fun _ => (SSE.sendEvent c t d i).1)) cid' with
            | some c => !(c.connected && !c.transport.failing)
            | none => false) ids
          = List.filter (fun cid' =>
            match SSE.storeGet store cid' with
            | some c => !(c.connected && !c.transport.failing)
            | none => false) ids :=
        List.filter_congr (fun x hx => by rw [hpres x hx])
      refine ⟨?_, ?_, ?_, ?_⟩
      · rw [ihs, hcongs, List.countP_cons, sendEvent_snd]
        simp only [hg]
        cases hb : (c.connected && !c.transport.failing) <;> simp [hb] <;> omega
      · rw [ihf, hcongf, List.filter_cons, sendEvent_snd]
        simp only [hg]
        cases hb : (c.connected && !c.transport.failing) <;> simp [hb, List.append_assoc]
      · intro j hj
        rw [iho j (fun hm => hj (List.mem_cons_of_mem _ hm))]
        exact storeGet_storeSet_ne store cid j _ hfe
          (fun h => hj (h ▸ List.mem_cons_self _ _))
      · intro cid' hcid' c' hc'
        rcases List.mem_cons.mp hcid' with h | h
        · subst h
          rw [hg] at hc'
          obtain rfl : c = c' := Option.some.inj hc'
          rw [iho cid' hnd.1]
          exact storeGet_storeSet_self store cid' _ c hg (by rw [sendEvent_id])
        · exact ihm cid' h c' (by rw [hpres cid' h]; exact hc')

/-- C5.  Broadcasting to a search writes to each attached connection
independently and never aborts on an individual failure: the returned count
is the number of connections whose write succeeds (those connected with a
non-throwing transport); every such connection has the event appended to its
transport regardless of other connections failing; a connection whose write
throws is merely marked disconnected and collected for removal; connections
not attached to the search are untouched by the write loop; and a search
with no subscribers yields 0 with the manager unchanged, which is not an
error. -/
theorem c5_broadcast (m : SSE.Manager) (searchId t : String) (d : Json)
    (i : Option String) (ids : List Nat)
    (hids : SSE.mapGet m.connections searchId = some ids) (hnd : ids.Nodup) :
    (SSE.broadcastToSearch m searchId t d i).2
      = ids.countP (fun cid =>
          match SSE.storeGet m.store cid with
          | some c => c.connected && !c.transport.failing
          | none => false) ∧
    (∀ cid ∈ ids, ∀ c : SSE.Conn, SSE.storeGet m.store cid = some c →
      c.connected = true → c.transport.failing = false →
      SSE.storeGet (SSE.broadcastLoop t d i ids (m.store, 0, [])).1 cid
        = some { c with transport := { c.transport with
            written := c.transport.written ++ [(t, d, i)] } }) ∧
    (∀ cid ∈ ids, ∀ c : SSE.Conn, SSE.storeGet m.store cid = some c →
      c.connected = true → c.transport.failing = true →
      SSE.storeGet (SSE.broadcastLoop t d i ids (m.store, 0, [])).1 cid
        = some { c with connected := false } ∧
      cid ∈ (SSE.broadcastLoop t d i ids (m.store, 0, [])).2.2) ∧
    (∀ j, j ∉ ids →
      SSE.storeGet (SSE.broadcastLoop t d i ids (m.store, 0, [])).1 j
        = SSE.storeGet m.store j) ∧
    (∀ sid, SSE.mapGet m.connections sid = none →
      SSE.broadcastToSearch m sid t d i = (m, 0)) := by
  obtain ⟨hs, hf, ho, hm⟩ := broadcastLoop_spec t d i ids m.store 0 [] hnd
  refine ⟨?_, ?_, ?_, ?_, ?_⟩
  · unfold SSE.broadcastToSearch
    rw [hids]
    dsimp only
    by_cases hlen : ids.length = 0
    · rw [if_pos hlen]
      rw [List.length_eq_zero] at hlen
      subst hlen
      rfl
    · rw [if_neg hlen]
      show (SSE.broadcastLoop t d i ids (m.store, 0, [])).2.1 = _
      rw [hs]
      exact Nat.zero_add _
  · intro cid hcid c hc h1 h2
    rw [hm cid hcid c hc, sendEvent_ok c t d i h1 h2]
  · intro cid hcid c hc h1 h2
    constructor
    · rw [hm cid hcid c hc, sendEvent_fail c t d i h1 h2]
    · rw [hf]
      refine List.mem_append_right _ (List.mem_filter.mpr ⟨hcid, ?_⟩)
      simp [hc, h1, h2]
  · exact ho
  · intro sid h
    unfold SSE.broadcastToSearch
    rw [h]

/-- C5, witness: one live connection and one connection with a throwing
transport attached to the same search; the broadcast delivers exactly once. -/
theorem c5_broadcast_witness :
    (SSE.broadcastToSearch
        { store := [SSE.newConn 0 "s1" "u1" false,
            { id := 1, searchId := "s1", userId := "u2",
              transport := { failing := true, written := [], ended := false },
              connected := true, heartbeatActive := true }],
          connections := [("s1", [0, 1])],
          userConnections := [("u1", [0]), ("u2", [1])],
          maxConnections := 10, nextId := 2 } "s1" "result" Json.null none).2 = 1 := by
  rw [(c5_broadcast _ "s1" "result" Json.null none [0, 1] (by decide) (by decide)).1]
  decide

theorem escChar_no_nl (c : Char) : '\n' ∉ escChar c := by
  unfold escChar
  by_cases h1 : c = '"'
  · rw [if_pos h1]
    decide
  · rw [if_neg h1]
    by_cases h2 : c = '\\'
    · rw [if_pos h2]
      decide
    · rw [if_neg h2]
      by_cases h3 : c = '\n'
      · rw [if_pos h3]
        decide
      · rw [if_neg h3]
        by_cases h4 : c = '\r'
        · rw [if_pos h4]
          decide
        · rw [if_neg h4]
          by_cases h5 : c = '\t'
          · rw [if_pos h5]
            decide
          · rw [if_neg h5]
            intro hm
            exact h3 (List.mem_singleton.mp hm).symm

theorem escChars_no_nl (s : List Char) : '\n' ∉ escChars s := by
  induction s with
  | nil =>
    rw [escChars_nil]
    exact List.not_mem_nil _
  | cons c cs ih =>
    rw [escChars_cons]
    intro hm
    rcases List.mem_append.mp hm with h | h
    · exact escChar_no_nl c h
    · exact ih h

theorem natChars_no_nl (n : Nat) : '\n' ∉ natChars n := fun hm =>
  absurd (natChars_digits n '\n' hm) (by decide)

theorem intChars_no_nl (i : Int) : '\n' ∉ intChars i := by
  unfold intChars
  by_cases h : i < 0
  · rw [if_pos h]
    intro hm
    rcases List.mem_cons.mp hm with h1 | h1
    · exact absurd h1 (by decide)
    · exact natChars_no_nl _ h1
  · rw [if_neg h]
    exact natChars_no_nl _

theorem keyChars_no_nl (k : String) : '\n' ∉ keyChars k := by
  unfold keyChars
  intro hm
  rcases List.mem_cons.mp hm with h | h
  · exact absurd h (by decide)
  · rcases List.mem_append.mp h with h | h
    · exact escChars_no_nl _ h
    · exact absurd h (by decide)

mutual
/-- The printed form of a JSON value never contains a raw newline. -/
theorem chars_no_nl : ∀ v : Json, '\n' ∉ Json.chars v
  | .null => by
    rw [chars_null]
    decide
  | .bool true => by
    rw [chars_true]
    decide
  | .bool false => by
    rw [chars_false]
    decide
  | .num i => by
    rw [chars_num]
    exact intChars_no_nl i
  | .str s => by
    rw [chars_str]
    intro hm
    rcases List.mem_cons.mp hm with h | h
    · exact absurd h (by decide)
    · rcases List.mem_append.mp h with h | h
      · exact escChars_no_nl _ h
      · exact absurd h (by decide)
  | .arr .nil => by
    rw [chars_arr_nil]
    decide
  | .arr (.cons v vs) => by
    rw [chars_arr_cons]
    intro hm
    rcases List.mem_cons.mp hm with h | h
    · exact absurd h (by decide)
    · rcases List.mem_append.mp h with h | h
      · rcases List.mem_append.mp h with h | h
        · exact chars_no_nl v h
        · exact lchars_no_nl vs h
      · exact absurd h (by decide)
  | .obj .nil => by
    rw [chars_obj_nil]
    decide
  | .obj (.cons k v kvs) => by
    rw [chars_obj_cons]
    intro hm
    rcases List.mem_cons.mp hm with h | h
    · exact absurd h (by decide)
    · rcases List.mem_append.mp h with h | h
      · rcases List.mem_append.mp h with h | h
        · rcases List.mem_append.mp h with h | h
          · exact keyChars_no_nl k h
          · exact chars_no_nl v h
        · exact ochars_no_nl kvs h
      · exact absurd h (by decide)

/-- Trailing array elements never contain a raw newline. -/
theorem lchars_no_nl : ∀ vs : JsonList, '\n' ∉ JsonList.chars vs
  | .nil => by
    rw [lchars_nil]
    exact List.not_mem_nil _
  | .cons v vs => by
    rw [lchars_cons]
    intro hm
    rcases List.mem_cons.mp hm with h | h
    · exact absurd h (by decide)
    · rcases List.mem_append.mp h with h | h
      · exact chars_no_nl v h
      · exact lchars_no_nl vs h

/-- Trailing object fields never contain a raw newline. -/
theorem ochars_no_nl : ∀ kvs : JsonObj, '\n' ∉ JsonObj.chars kvs
  | .nil => by
    rw [ochars_nil]
    exact List.not_mem_nil _
  | .cons k v kvs => by
    rw [ochars_cons]
    intro hm
    rcases List.mem_cons.mp hm with h | h
    · exact absurd h (by decide)
    · rcases List.mem_append.mp h with h | h
      · rcases List.mem_append.mp h with h | h
        · exact keyChars_no_nl k h
        · exact chars_no_nl v h
      · exact ochars_no_nl kvs h
end

/-- The last character of any printed JSON value is never whitespace. -/
theorem chars_last_not_ws (v : Json) : ∀ c, (Json.chars v).getLast? = some c →
    isWsChar c = false := by
  intro c hc
  match v with
  | .null =>
    rw [chars_null] at hc
    exact (by decide : ∀ x ∈ (['n', 'u', 'l', 'l'] : List Char), isWsChar x = false)
      c (StreamService.getLast?_mem_of _ _ hc)
  | .bool true =>
    rw [chars_true] at hc
    exact (by decide : ∀ x ∈ (['t', 'r', 'u', 'e'] : List Char), isWsChar x = false)
      c (StreamService.getLast?_mem_of _ _ hc)
  | .bool false =>
    rw [chars_false] at hc
    exact (by decide : ∀ x ∈ (['f', 'a', 'l', 's', 'e'] : List Char), isWsChar x = false)
      c (StreamService.getLast?_mem_of _ _ hc)
  | .num i =>
    rw [chars_num] at hc
    have hmem := StreamService.getLast?_mem_of _ _ hc
    unfold intChars at hmem
    by_cases h : i < 0
    · rw [if_pos h] at hmem
      rcases List.mem_cons.mp hmem with h1 | h1
      · subst h1
        decide
      · exact digit_not_ws c (natChars_digits _ c h1)
    · rw [if_neg h] at hmem
      exact digit_not_ws c (natChars_digits _ c hmem)
  | .str s =>
    rw [chars_str,
      show '"' :: (escChars s.data ++ ['"']) = ('"' :: escChars s.data) ++ ['"'] from rfl,
      List.getLast?_concat] at hc
    obtain rfl : '"' = c := Option.some.inj hc
    decide
  | .arr .nil =>
    rw [chars_arr_nil] at hc
    exact (by decide : ∀ x ∈ (['[', ']'] : List Char), isWsChar x = false)
      c (StreamService.getLast?_mem_of _ _ hc)
  | .arr (.cons v vs) =>
    rw [chars_arr_cons,
      show '[' :: (Json.chars v ++ JsonList.chars vs ++ [']'])
        = ('[' :: (Json.chars v ++ JsonList.chars vs)) ++ [']'] from rfl,
      List.getLast?_concat] at hc
    obtain rfl : ']' = c := Option.some.inj hc
    decide
  | .obj .nil =>
    rw [chars_obj_nil] at hc
    exact (by decide : ∀ x ∈ (['\x7b', '\x7d'] : List Char), isWsChar x = false)
      c (StreamService.getLast?_mem_of _ _ hc)
  | .obj (.cons k v kvs) =>
    rw [chars_obj_cons,
      show '\x7b' :: (keyChars k ++ Json.chars v ++ JsonObj.chars kvs ++ ['\x7d'])
        = ('\x7b' :: (keyChars k ++ Json.chars v ++ JsonObj.chars kvs)) ++ ['\x7d'] from rfl,
      List.getLast?_concat] at hc
    obtain rfl : '\x7d' = c := Option.some.inj hc
    decide

theorem trimChars_space (X : List Char)
    (h1 : ∀ c, X.head? = some c → isWsChar c = false)
    (h2 : ∀ c, X.getLast? = some c → isWsChar c = false) :
    trimChars (' ' :: X) = X := by
  rw [show (' ' :: X) = [' '] ++ X from rfl, trimChars_ws_append _ _ (by decide),
    trimChars_eq_self X h1 h2]

theorem processLine_id_line (ev : SSEEvent) (rest : List Char) :
    IRAService.processLine ev ("id: ".data ++ rest)
      = { ev with id := some (String.mk (trimChars (' ' :: rest))) } := by
  unfold IRAService.processLine
  rw [show ("id: ".data ++ rest) = 'i' :: 'd' :: ':' :: ' ' :: rest from rfl]
  rw [show hasPref "event:".data ('i' :: 'd' :: ':' :: ' ' :: rest) = false from
      hasPref_neq_head _ _ _ _ (by decide)]
  rw [show hasPref "data:".data ('i' :: 'd' :: ':' :: ' ' :: rest) = false from
      hasPref_neq_head _ _ _ _ (by decide)]
  rw [show hasPref "id:".data ('i' :: 'd' :: ':' :: ' ' :: rest) = true from by
      simp [hasPref_cons, hasPref_nil]]
  simp

theorem processLine_event_line (ev : SSEEvent) (rest : List Char) :
    IRAService.processLine ev ("event: ".data ++ rest)
      = { ev with type := some (String.mk (trimChars (' ' :: rest))) } := by
  unfold IRAService.processLine
  rw [show ("event: ".data ++ rest)
      = 'e' :: 'v' :: 'e' :: 'n' :: 't' :: ':' :: ' ' :: rest from rfl]
  rw [show hasPref "event:".data ('e' :: 'v' :: 'e' :: 'n' :: 't' :: ':' :: ' ' :: rest)
      = true from by simp [hasPref_cons, hasPref_nil]]
  simp

theorem processLine_data_line (ev : SSEEvent) (rest : List Char)
    (hne : trimChars (' ' :: rest) ≠ []) :
    IRAService.processLine ev ("data: ".data ++ rest)
      = { ev with data := some (jsValue (String.mk (trimChars (' ' :: rest)))) } := by
  unfold IRAService.processLine
  rw [show ("data: ".data ++ rest) = 'd' :: 'a' :: 't' :: 'a' :: ':' :: ' ' :: rest from rfl]
  rw [show hasPref "event:".data ('d' :: 'a' :: 't' :: 'a' :: ':' :: ' ' :: rest) = false from
      hasPref_neq_head _ _ _ _ (by decide)]
  rw [show hasPref "data:".data ('d' :: 'a' :: 't' :: 'a' :: ':' :: ' ' :: rest) = true from by
      simp [hasPref_cons, hasPref_nil]]
  rw [show ((('d' :: 'a' :: 't' :: 'a' :: ':' :: ' ' :: rest).drop 5)) = ' ' :: rest from rfl]
  rw [if_neg hne]
  simp

theorem takeWhile_all {α : Type} (p : α → Bool) (l : List α)
    (h : ∀ x ∈ l, p x = true) : l.takeWhile p = l := by
  induction l with
  | nil => rfl
  | cons a l ih =>
    rw [List.takeWhile_cons, h a (List.mem_cons_self _ _),
      ih (fun x hx => h x (List.mem_cons_of_mem _ hx))]
    simp

/-- `parseInt` reads back a printed sequence number. -/
theorem parseIntJS_natToString (s : Nat) : parseIntJS (some (natToString s)) = (s : Int) := by
  obtain ⟨c, cs, hnc, hdig⟩ := natChars_head s
  unfold parseIntJS
  dsimp only
  rw [show (natToString s).data = natChars s from rfl, hnc,
    dropWhile_ws_of_head _ _ (digit_not_ws c hdig)]
  dsimp only
  rw [if_neg (digit_ne c '-' hdig (by decide)), if_neg (digit_ne c '+' hdig (by decide))]
  rw [show (c :: cs) = natChars s from hnc.symm,
    takeWhile_all isDigitCh (natChars s) (natChars_digits s),
    if_neg (by rw [hnc]; exact fun h => List.noConfusion h), digitsToNat_natChars]

theorem getLast?_append_right {α : Type} : ∀ (a b : List α), b ≠ [] →
    (a ++ b).getLast? = b.getLast?
  | [], _, _ => rfl
  | x :: a, b, h => by
    rw [List.cons_append]
    have ih := getLast?_append_right a b h
    cases ha : a ++ b with
    | nil => exact absurd (List.append_eq_nil.mp ha).2 h
    | cons y l =>
      rw [ha] at ih
      rw [List.getLast?_cons_cons]
      exact ih

theorem chars_ne_nil (data : Json) : Json.chars data ≠ [] := by
  obtain ⟨c0, cs0, h0, _⟩ := chars_shape data
  rw [h0]
  exact fun h => List.noConfusion h

theorem chars_head_not_ws (data : Json) :
    ∀ c, (Json.chars data).head? = some c → isWsChar c = false := by
  obtain ⟨c0, cs0, h0, hw0, _, _⟩ := chars_shape data
  intro c hc
  rw [h0] at hc
  simp at hc
  rw [← hc]
  exact hw0

theorem trim_chars_space_stringify (data : Json) :
    trimChars (' ' :: (Json.stringify data).data) = Json.chars data := by
  rw [show (Json.stringify data).data = Json.chars data from rfl,
    trimChars_space _ (chars_head_not_ws data) (chars_last_not_ws data)]

theorem sse_fold_two (type : String) (data : Json) (ev : SSEEvent) :
    IRAService.processLine (IRAService.processLine ev ("event: ".data ++ type.data))
        ("data: ".data ++ (Json.stringify data).data)
      = { ev with
          type := some (String.mk (trimChars (' ' :: type.data)))
          data := some (jsValue (Json.stringify data)) } := by
  rw [processLine_event_line,
    processLine_data_line _ _ (by rw [trim_chars_space_stringify]; exact chars_ne_nil data),
    trim_chars_space_stringify]
  rfl

theorem natChars_head_not_ws (s : Nat) :
    ∀ c, (natChars s).head? = some c → isWsChar c = false := by
  obtain ⟨c0, cs0, h0, hd0⟩ := natChars_head s
  intro c hc
  rw [h0] at hc
  simp at hc
  rw [← hc]
  exact digit_not_ws c0 hd0

theorem natChars_last_not_ws (s : Nat) :
    ∀ c, (natChars s).getLast? = some c → isWsChar c = false := by
  intro c hc
  exact digit_not_ws c (natChars_digits s c (StreamService.getLast?_mem_of _ _ hc))

theorem trim_chars_space_natToString (s : Nat) :
    trimChars (' ' :: (natToString s).data) = natChars s := by
  rw [show (natToString s).data = natChars s from rfl,
    trimChars_space _ (natChars_head_not_ws s) (natChars_last_not_ws s)]

theorem natToString_ne_nil (s : Nat) : (natToString s).data ≠ [] := by
  rw [show (natToString s).data = natChars s from rfl]
  obtain ⟨c0, cs0, h0, _⟩ := natChars_head s
  rw [h0]
  exact fun h => List.noConfusion h

theorem no_nl_id_line (s : Nat) : '\n' ∉ "id: ".data ++ (natToString s).data := by
  intro hm
  rcases List.mem_append.mp hm with h | h
  · exact absurd h (by decide)
  · rw [show (natToString s).data = natChars s from rfl] at h
    exact natChars_no_nl s h

theorem no_nl_event_line (type : String) (hnl : '\n' ∉ type.data) :
    '\n' ∉ "event: ".data ++ type.data := by
  intro hm
  rcases List.mem_append.mp hm with h | h
  · exact absurd h (by decide)
  · exact hnl h

theorem no_nl_data_line (data : Json) :
    '\n' ∉ "data: ".data ++ (Json.stringify data).data := by
  intro hm
  rcases List.mem_append.mp hm with h | h
  · exact absurd h (by decide)
  · exact chars_no_nl data h

theorem sse_shape_id (type : String) (data : Json) (s : Nat) :
    sseEventChars type data (some (natToString s))
      = (("id: ".data ++ (natToString s).data) ++ '\n' ::
          (("event: ".data ++ type.data) ++ '\n' ::
            ("data: ".data ++ (Json.stringify data).data))) ++ ['\n', '\n'] := by
  unfold sseEventChars
  dsimp only
  rw [if_neg (natToString_ne_nil s)]
  simp [List.append_assoc]

theorem sse_shape_noid (type : String) (data : Json) :
    sseEventChars type data none
      = (("event: ".data ++ type.data) ++ '\n' ::
          ("data: ".data ++ (Json.stringify data).data)) ++ ['\n', '\n'] := by
  unfold sseEventChars
  dsimp only
  simp [List.append_assoc]

theorem parse_serialized_id (type : String) (data : Json) (s : Nat)
    (hnl : '\n' ∉ type.data)
    (hh : ∀ c, type.data.head? = some c → isWsChar c = false)
    (hl : ∀ c, type.data.getLast? = some c → isWsChar c = false) :
    IRAService.parseSSEData (serializeEvent type data (some (natToString s)))
      = some { type := some type, data := some data, id := some (natToString s) } := by
  have hjs : jsValue (Json.stringify data) = data := by
    unfold jsValue
    rw [parseJson_stringify]
    rfl
  have hty : String.mk (trimChars (' ' :: type.data)) = type := by
    rw [trimChars_space _ hh hl]
  have hcore2 : (("id: ".data ++ (natToString s).data) ++ '\n' ::
        (("event: ".data ++ type.data) ++ '\n' ::
          ("data: ".data ++ (Json.stringify data).data)))
      = ((("id: ".data ++ (natToString s).data) ++ '\n' ::
          (("event: ".data ++ type.data) ++ '\n' :: "data: ".data)))
        ++ (Json.stringify data).data := by
    simp [List.append_assoc]
  have hcorelast : ∀ c, ((("id: ".data ++ (natToString s).data) ++ '\n' ::
        (("event: ".data ++ type.data) ++ '\n' ::
          ("data: ".data ++ (Json.stringify data).data)))).getLast? = some c →
      isWsChar c = false := by
    intro c hc
    rw [hcore2, getLast?_append_right _ _
        (by rw [show (Json.stringify data).data = Json.chars data from rfl]
            exact chars_ne_nil data),
      show (Json.stringify data).data = Json.chars data from rfl] at hc
    exact chars_last_not_ws data c hc
  have hcorehead : ∀ c, ((("id: ".data ++ (natToString s).data) ++ '\n' ::
        (("event: ".data ++ type.data) ++ '\n' ::
          ("data: ".data ++ (Json.stringify data).data)))).head? = some c →
      isWsChar c = false := by
    intro c hc
    rw [show ((("id: ".data ++ (natToString s).data) ++ '\n' ::
        (("event: ".data ++ type.data) ++ '\n' ::
          ("data: ".data ++ (Json.stringify data).data)))).head? = some 'i' from rfl] at hc
    obtain rfl := Option.some.inj hc
    decide
  unfold serializeEvent IRAService.parseSSEData
  rw [show (String.mk (sseEventChars type data (some (natToString s)))).data
      = sseEventChars type data (some (natToString s)) from rfl]
  rw [sse_shape_id type data s]
  rw [trimChars_append_ws _ _ (by decide)]
  rw [trimChars_eq_self _ hcorehead hcorelast]
  rw [splitNL_append _ _ (no_nl_id_line s)]
  rw [splitNL_append _ _ (no_nl_event_line type hnl)]
  rw [splitNL_not_nl _ (no_nl_data_line data)]
  rw [List.foldl_cons, List.foldl_cons, List.foldl_cons, List.foldl_nil]
  rw [processLine_id_line, sse_fold_two, hty, trim_chars_space_natToString, hjs]
  rw [if_neg (by simp)]
  rfl

theorem parse_serialized_noid (type : String) (data : Json)
    (hnl : '\n' ∉ type.data)
    (hh : ∀ c, type.data.head? = some c → isWsChar c = false)
    (hl : ∀ c, type.data.getLast? = some c → isWsChar c = false) :
    IRAService.parseSSEData (serializeEvent type data none)
      = some { type := some type, data := some data, id := none } := by
  have hjs : jsValue (Json.stringify data) = data := by
    unfold jsValue
    rw [parseJson_stringify]
    rfl
  have hty : String.mk (trimChars (' ' :: type.data)) = type := by
    rw [trimChars_space _ hh hl]
  have hcore2 : ((("event: ".data ++ type.data) ++ '\n' ::
          ("data: ".data ++ (Json.stringify data).data)))
      = ((("event: ".data ++ type.data) ++ '\n' :: "data: ".data))
        ++ (Json.stringify data).data := by
    simp [List.append_assoc]
  have hcorelast : ∀ c, ((("event: ".data ++ type.data) ++ '\n' ::
          ("data: ".data ++ (Json.stringify data).data))).getLast? = some c →
      isWsChar c = false := by
    intro c hc
    rw [hcore2, getLast?_append_right _ _
        (by rw [show (Json.stringify data).data = Json.chars data from rfl]
            exact chars_ne_nil data),
      show (Json.stringify data).data = Json.chars data from rfl] at hc
    exact chars_last_not_ws data c hc
  have hcorehead : ∀ c, ((("event: ".data ++ type.data) ++ '\n' ::
          ("data: ".data ++ (Json.stringify data).data))).head? = some c →
      isWsChar c = false := by
    intro c hc
    rw [show ((("event: ".data ++ type.data) ++ '\n' ::
          ("data: ".data ++ (Json.stringify data).data))).head? = some 'e' from rfl] at hc
    obtain rfl := Option.some.inj hc
    decide
  unfold serializeEvent IRAService.parseSSEData
  rw [show (String.mk (sseEventChars type data none)).data
      = sseEventChars type data none from rfl]
  rw [sse_shape_noid type data]
  rw [trimChars_append_ws _ _ (by decide)]
  rw [trimChars_eq_self _ hcorehead hcorelast]
  rw [splitNL_append _ _ (no_nl_event_line type hnl)]
  rw [splitNL_not_nl _ (no_nl_data_line data)]
  rw [List.foldl_cons, List.foldl_cons, List.foldl_nil]
  rw [sse_fold_two, hty, hjs]
  rw [if_neg (by simp)]

/-- C8.  An event with sequence `s`, kind `type` and payload `data` is
serialized exactly as the block `id: s\nevent: type\ndata: JSON(data)\n\n`,
with the `id:` line omitted when no sequence applies; a conforming parse of
either block (the repository's own SSE frame parser) recovers the kind, the
payload and the sequence id, and `parseInt` reads the sequence back as `s`.
The kind is assumed newline-free with no leading or trailing whitespace, as
all emitted kinds are. -/
theorem c8_roundtrip (type : String) (data : Json) (s : Nat)
    (hnl : '\n' ∉ type.data)
    (hh : ∀ c, type.data.head? = some c → isWsChar c = false)
    (hl : ∀ c, type.data.getLast? = some c → isWsChar c = false) :
    sseEventChars type data (some (natToString s))
      = (("id: ".data ++ (natToString s).data) ++ '\n' ::
          (("event: ".data ++ type.data) ++ '\n' ::
            ("data: ".data ++ (Json.stringify data).data))) ++ ['\n', '\n'] ∧
    sseEventChars type data none
      = (("event: ".data ++ type.data) ++ '\n' ::
          ("data: ".data ++ (Json.stringify data).data)) ++ ['\n', '\n'] ∧
    IRAService.parseSSEData (serializeEvent type data (some (natToString s)))
      = some { type := some type, data := some data, id := some (natToString s) } ∧
    IRAService.parseSSEData (serializeEvent type data none)
      = some { type := some type, data := some data, id := none } ∧
    parseIntJS (some (natToString s)) = (s : Int) :=
  ⟨sse_shape_id type data s, sse_shape_noid type data,
   parse_serialized_id type data s hnl hh hl,
   parse_serialized_noid type data hnl hh hl,
   parseIntJS_natToString s⟩

/-- C8, witness: a THINKING event with sequence 5 and an object payload
round-trips through the wire framing. -/
theorem c8_roundtrip_witness :
    IRAService.parseSSEData (serializeEvent "THINKING"
        (.obj (.cons "a" (.num 1) .nil)) (some (natToString 5)))
      = some { type := some "THINKING", data := some (.obj (.cons "a" (.num 1) .nil)),
               id := some (natToString 5) } ∧
    parseIntJS (some (natToString 5)) = (5 : Int) :=
  ⟨(c8_roundtrip "THINKING" (.obj (.cons "a" (.num 1) .nil)) 5 (by decide)
      (fun c hc => by
        rw [show "THINKING".data.head? = some 'T' from rfl] at hc
        obtain rfl := Option.some.inj hc
        decide)
      (fun c hc => by
        rw [show "THINKING".data.getLast? = some 'G' from rfl] at hc
        obtain rfl := Option.some.inj hc
        decide)).2.2.1,
   (c8_roundtrip "THINKING" (.obj (.cons "a" (.num 1) .nil)) 5 (by decide)
      (fun c hc => by
        rw [show "THINKING".data.head? = some 'T' from rfl] at hc
        obtain rfl := Option.some.inj hc
        decide)
      (fun c hc => by
        rw [show "THINKING".data.getLast? = some 'G' from rfl] at hc
        obtain rfl := Option.some.inj hc
        decide)).2.2.2.2⟩

